import Mathlib

/-! NoneEvent sampling engine (src/noneEvent.cpp)

A shallow embedding of the wall-clock style sampling engine:

* `adjustInterval`  : the interval throttle (lines 47-53),
* `getThreadState`  : the running / sleeping classifier (lines 22-45),
* `selectLoop`      : the thread selection loop of one cycle (lines 117-134),
* `timerLoopBody`   : one iteration of the `while (_running)` body (lines 103-147),
* `signalHandler`   : the callback run in the interrupted thread (lines 55-63),
* `start`           : signal resolution, handler installation, thread creation
  (lines 65-86).

C `int` is a 32-bit and C `long` / `long long` a 64-bit two's complement
integer.  Values are mathematical integers; every arithmetic operation of the
source is followed by an explicit reduction into the range of its C type.
Operations the hardware traps on (division by zero, `LONG_MIN / -1`) yield
`none`.
-/

namespace NoneEvent

/-! ## Machine integers -/

/-- Reduction of an integer into the range of a 32-bit signed `int`. -/
def wrapInt (x : Int) : Int := (x + 2147483648) % 4294967296 - 2147483648

/-- Reduction of an integer into the range of a 64-bit signed `long`. -/
def wrapLong (x : Int) : Int :=
  (x + 9223372036854775808) % 18446744073709551616 - 9223372036854775808

/-- Largest value of a C `int`. -/
def INT_MAX : Int := 2147483647

/-- Smallest value of a C `int`. -/
def INT_MIN : Int := -2147483648

/-- Smallest value of a C `long`. -/
def LONG_MIN : Int := -9223372036854775808

/-- C division on `int`: truncation toward zero, no result for a zero divisor
or for `INT_MIN / -1`. -/
def divInt (a b : Int) : Option Int :=
  if b = 0 then none
  else if a = INT_MIN ∧ b = -1 then none
  else some (Int.tdiv a b)

/-- C division on `long`: truncation toward zero, no result for a zero divisor
or for `LONG_MIN / -1`. -/
def divLong (a b : Int) : Option Int :=
  if b = 0 then none
  else if a = LONG_MIN ∧ b = -1 then none
  else some (Int.tdiv a b)

/-! ## Constants (lines 12 and 16) -/

/-- Maximum number of threads sampled in one iteration (line 12). -/
def NONE_THREADS_PER_TICK : Int := 8

/-- Hard limit for the thread walking interval, 100 microseconds (line 16). -/
def NONE_MIN_INTERVAL : Int := 100000

/-! ## adjustInterval (lines 47-53) -/

/-- The divisor of line 50,
`(thread_count + NONE_THREADS_PER_TICK - 1) / NONE_THREADS_PER_TICK`, computed
left to right in `int`. -/
def adjustIntervalDivisor (thread_count : Int) : Option Int :=
  divInt (wrapInt (wrapInt (thread_count + NONE_THREADS_PER_TICK) - 1))
    NONE_THREADS_PER_TICK

/-- The function `NoneEvent::adjustInterval(long interval, int thread_count)`: above the
throttle the interval is divided (in `long`) by the divisor of line 50,
otherwise it is returned as it is. -/
def adjustInterval (interval : Int) (thread_count : Int) : Option Int :=
  if thread_count > NONE_THREADS_PER_TICK then do
    let divisor ← adjustIntervalDivisor thread_count
    divLong interval divisor
  else
    some interval

/-! ## getThreadState (lines 22-45) -/

/-- Modelled from the spec: the enum `ThreadState` of the header `os.h`, which
is not among the sources; the spec's ThreadClassification, enum
{RUNNING, SLEEPING}. -/
inductive ThreadState where
  | THREAD_RUNNING
  | THREAD_SLEEPING
  deriving DecidableEq, Repr

/-- Reduction of an integer into the range of a 64-bit `uintptr_t`. -/
def wrapWord (x : Int) : Nat := (x % 18446744073709551616).toNat

/-- Everything `getThreadState` consults: the architecture constant
`SYSCALL_SIZE` (declared in a header that is not among the sources, hence a
parameter), the saved program counter `frame.pc()`, the instruction test
`StackFrame::isSyscall` as a predicate on addresses, the outcome of
`frame.checkInterruptedSyscall()` and whether
`Profiler::findLibraryByAddress` returns non-NULL for an address. -/
structure SavedContext where
  SYSCALL_SIZE : Nat
  pc : Nat
  isSyscall : Nat → Bool
  checkInterruptedSyscall : Bool
  findLibraryByAddress : Nat → Bool

/-- The observable steps of one classification, in program order. -/
inductive Access where
  | isSyscall (addr : Nat)
  | findLibraryByAddress (addr : Nat) (found : Bool)
  | checkInterruptedSyscall
  deriving DecidableEq, Repr

/-- The address of the previous instruction, `pc - SYSCALL_SIZE` (line 34). -/
def prevPc (c : SavedContext) : Nat := wrapWord ((c.pc : Int) - (c.SYSCALL_SIZE : Int))

/-- The readability guard of lines 35-37 with the short circuit of `||`: the
library lookup happens only when the page test fails.  Returns the value of
the guard and the accesses made so far. -/
def prevPcReadable (c : SavedContext) (trace : List Access) : Bool × List Access :=
  if (c.pc &&& 0xfff) ≥ c.SYSCALL_SIZE then (true, trace)
  else
    (c.findLibraryByAddress (prevPc c),
      trace ++ [Access.findLibraryByAddress (prevPc c) (c.findLibraryByAddress (prevPc c))])

/-- The function `NoneEvent::getThreadState` together with the accesses it makes, in
program order. -/
def getThreadStateTrace (c : SavedContext) : ThreadState × List Access :=
  if c.isSyscall c.pc then
    (ThreadState.THREAD_SLEEPING, [Access.isSyscall c.pc])
  else
    let guard := prevPcReadable c [Access.isSyscall c.pc]
    if guard.1 then
      if c.isSyscall (prevPc c) then
        if c.checkInterruptedSyscall then
          (ThreadState.THREAD_SLEEPING,
            guard.2 ++ [Access.isSyscall (prevPc c), Access.checkInterruptedSyscall])
        else
          (ThreadState.THREAD_RUNNING,
            guard.2 ++ [Access.isSyscall (prevPc c), Access.checkInterruptedSyscall])
      else
        (ThreadState.THREAD_RUNNING, guard.2 ++ [Access.isSyscall (prevPc c)])
    else
      (ThreadState.THREAD_RUNNING, guard.2)

/-- The function `NoneEvent::getThreadState(void *ucontext)` (lines 22-45). -/
def getThreadState (c : SavedContext) : ThreadState := (getThreadStateTrace c).1

/-- The condition under which the source returns `THREAD_SLEEPING`: the
instruction at `pc` is a syscall, or the one before it is, the syscall was
interrupted and the previous address passed the readability guard. -/
def sleepingCondition (c : SavedContext) : Prop :=
  c.isSyscall c.pc = true ∨
  (c.isSyscall (prevPc c) = true ∧ c.checkInterruptedSyscall = true ∧
    ((c.pc &&& 0xfff) ≥ c.SYSCALL_SIZE ∨ c.findLibraryByAddress (prevPc c) = true))

/-- Every `isSyscall` read of the trace comes after a successful
`findLibraryByAddress` lookup of the same address. -/
def readsVerified (trace : List Access) : Prop :=
  ∀ i addr, trace.get? i = some (Access.isSyscall addr) →
    ∃ j, j < i ∧ trace.get? j = some (Access.findLibraryByAddress addr true)

/-! ## The thread selection loop of timerLoop (lines 117-134) -/

/-- Modelled from the spec: `ThreadList` of `os.h`, which is not among the
sources; a finite sequence of thread ids with a cursor that persists across
cycles.  `next()` returns the id at the cursor and advances, or the sentinel
-1 at the end; `rewind()` puts the cursor back to the start. -/
structure ThreadList where
  ids : List Int
  cursor : Nat
  deriving DecidableEq, Repr

/-- Modelled from the spec: `ThreadList::next()`, the id at the cursor (the
cursor advances) or the sentinel -1. -/
def ThreadList.next (l : ThreadList) : Int × ThreadList :=
  match l.ids.get? l.cursor with
  | some id => (id, { ids := l.ids, cursor := l.cursor + 1 })
  | none => (-1, l)

/-- Modelled from the spec: `ThreadList::rewind()`. -/
def ThreadList.rewind (l : ThreadList) : ThreadList := { ids := l.ids, cursor := 0 }

/-- Modelled from the spec: `ThreadList::size()`, as a C `int`. -/
def ThreadList.size (l : ThreadList) : Int := wrapInt (l.ids.length : Int)

/-- The calls timerLoop makes to its collaborators, with what they returned. -/
inductive Call where
  | next (result : Int)
  | rewind
  | accept (thread_id : Int) (result : Bool)
  | threadState (thread_id : Int) (result : ThreadState)
  | sendSignalToThread (thread_id : Int) (signo : Int) (result : Bool)
  | filterSize (result : Int)
  | listSize (result : Int)
  | nanotime (result : Int)
  | sleep (nanos : Int)
  deriving DecidableEq, Repr

/-- The surroundings of timerLoop.  `self`, `thread_filter_enabled` and
`sample_idle_threads` are the locals read once at loop entry (lines 96-99);
`_signal` and `_interval` are the static members.  The collaborators
(`ThreadFilter::accept`, `ThreadFilter::size`, `OS::threadState`,
`OS::sendSignalToThread`, `OS::nanotime`, the flag `_enabled`) may answer
differently each time they are asked: each takes the number of calls made so
far. -/
structure Env where
  self : Int
  thread_filter_enabled : Bool
  sample_idle_threads : Bool
  _signal : Int
  _interval : Int
  _enabled : Nat → Bool
  accept : Nat → Int → Bool
  filterSize : Nat → Int
  threadState : Nat → Int → ThreadState
  sendSignalToThread : Nat → Int → Int → Bool
  nanotime : Nat → Int

/-- The state of the selection loop: the thread list, the loop counter
`count` and the calls made so far. -/
structure LoopState where
  thread_list : ThreadList
  count : Int
  trace : List Call
  deriving DecidableEq, Repr

/-- The skip test of lines 124-125,
`thread_id == self || (thread_filter_enabled && !thread_filter->accept(thread_id))`,
with the short circuits: the filter is asked only for an id other than `self`
and only when it is enabled. -/
def skipThread (env : Env) (thread_id : Int) (trace : List Call) : Bool × List Call :=
  if thread_id = env.self then (true, trace)
  else if env.thread_filter_enabled then
    (!(env.accept trace.length thread_id),
      trace ++ [Call.accept thread_id (env.accept trace.length thread_id)])
  else (false, trace)

/-- The test of line 129,
`sample_idle_threads || OS::threadState(thread_id) == THREAD_RUNNING`: the
state is queried only when idle threads are not sampled. -/
def wantsSignal (env : Env) (thread_id : Int) (trace : List Call) : Bool × List Call :=
  if env.sample_idle_threads then (true, trace)
  else
    (decide (env.threadState trace.length thread_id = ThreadState.THREAD_RUNNING),
      trace ++ [Call.threadState thread_id (env.threadState trace.length thread_id)])

/-- Lines 129-133 for an id that was not skipped: the signal is sent when
line 129 allows it and `count` advances only when the delivery succeeded. -/
def signalThread (env : Env) (thread_id : Int) (tl : ThreadList) (count : Int)
    (trace : List Call) : LoopState :=
  let want := wantsSignal env thread_id trace
  if want.1 then
    let ok := env.sendSignalToThread want.2.length thread_id env._signal
    let trace2 := want.2 ++ [Call.sendSignalToThread thread_id env._signal ok]
    if ok then { thread_list := tl, count := wrapInt (count + 1), trace := trace2 }
    else { thread_list := tl, count := count, trace := trace2 }
  else { thread_list := tl, count := count, trace := want.2 }

/-- One pass through the body of the `for` loop (lines 118-133).  The flag is
true when the pass left the loop by `break` (the sentinel was read and the
list rewound). -/
def selectBody (env : Env) (s : LoopState) : LoopState × Bool :=
  let thread_id := s.thread_list.next.1
  let tl := s.thread_list.next.2
  let trace1 := s.trace ++ [Call.next thread_id]
  if thread_id = -1 then
    ({ thread_list := tl.rewind, count := s.count, trace := trace1 ++ [Call.rewind] }, true)
  else
    let skip := skipThread env thread_id trace1
    if skip.1 then
      ({ thread_list := tl, count := s.count, trace := skip.2 }, false)
    else
      (signalThread env thread_id tl s.count skip.2, false)

/-- The loop `for (int count = 0; count < NONE_THREADS_PER_TICK;)` of lines
117-134 from a given state.  The fuel bounds the number of passes through the
body; `none` when it runs out before the loop ends. -/
def selectLoop (env : Env) : Nat → LoopState → Option LoopState
  | 0, s => if s.count < NONE_THREADS_PER_TICK then none else some s
  | fuel + 1, s =>
    if s.count < NONE_THREADS_PER_TICK then
      if (selectBody env s).2 then some (selectBody env s).1
      else selectLoop env fuel (selectBody env s).1
    else some s

/-- One scheduler cycle: the loop of lines 117-134 entered with `count = 0`,
with one pass per remaining id and one for the sentinel. -/
def selectCycle (env : Env) (tl : ThreadList) (trace : List Call) : Option LoopState :=
  selectLoop env (tl.ids.length - tl.cursor + 1)
    { thread_list := tl, count := 0, trace := trace }

/-- The (thread id, outcome) of every `OS::sendSignalToThread` call of a trace,
in order. -/
def sendCalls : List Call → List (Int × Bool)
  | [] => []
  | Call.sendSignalToThread thread_id _ ok :: rest => (thread_id, ok) :: sendCalls rest
  | _ :: rest => sendCalls rest

/-- The thread ids for which a trace requests signal delivery. -/
def signalledIds (trace : List Call) : List Int := (sendCalls trace).map Prod.fst

/-- The number of `OS::sendSignalToThread` calls of a trace that succeeded. -/
def deliveredCount (trace : List Call) : Nat :=
  ((sendCalls trace).filter fun p => p.2).length

/-- The thread ids to which a trace delivers the signal with success. -/
def deliveredIds (trace : List Call) : List Int :=
  ((sendCalls trace).filter fun p => p.2).map Prod.fst

/-- The thread ids a trace passes to `OS::threadState`. -/
def queriedIds : List Call → List Int
  | [] => []
  | Call.threadState thread_id _ :: rest => thread_id :: queriedIds rest
  | _ :: rest => queriedIds rest

/-- The durations a trace passes to `OS::sleep`, in order. -/
def sleeps : List Call → List Int
  | [] => []
  | Call.sleep nanos :: rest => nanos :: sleeps rest
  | _ :: rest => sleeps rest

/-- The second trace continues the first. -/
def Continues (a b : List Call) : Prop := ∃ new, b = a ++ new

/-- What one pass through the loop body keeps: the trace only grows, `count`
grows by the number of successful deliveries, and `self` is neither signalled
nor queried. -/
structure Keeps (env : Env) (s r : LoopState) : Prop where
  continues : Continues s.trace r.trace
  counted : r.count + deliveredCount s.trace = s.count + deliveredCount r.trace
  sent : (signalledIds r.trace).count env.self = (signalledIds s.trace).count env.self
  queried : (queriedIds r.trace).count env.self = (queriedIds s.trace).count env.self
  ids : r.thread_list.ids = s.thread_list.ids
  grows : s.count ≤ r.count

/-! ## One iteration of the timerLoop body (lines 103-147) -/

/-- The state timerLoop carries from one iteration to the next. -/
structure TimerState where
  thread_list : ThreadList
  next_cycle_time : Int
  trace : List Call
  deriving DecidableEq, Repr

/-- Lines 109-115: with idle sampling the target time advances by the adjusted
interval of the estimated thread count. -/
def advanceTarget (env : Env) (s : TimerState) : Option TimerState :=
  if env.sample_idle_threads then
    let estimated_thread_count :=
      if env.thread_filter_enabled then wrapInt (env.filterSize s.trace.length)
      else s.thread_list.size
    let trace1 := s.trace ++
      [if env.thread_filter_enabled then Call.filterSize estimated_thread_count
       else Call.listSize estimated_thread_count]
    match adjustInterval env._interval estimated_thread_count with
    | some adjusted =>
      some { thread_list := s.thread_list,
             next_cycle_time := wrapLong (s.next_cycle_time + adjusted),
             trace := trace1 }
    | none => none
  else some s

/-- Lines 136-146: the pacing at the end of a cycle. -/
def pace (env : Env) (s : TimerState) : TimerState :=
  if env.sample_idle_threads then
    let current_time := env.nanotime s.trace.length
    let trace1 := s.trace ++ [Call.nanotime current_time]
    if wrapLong (s.next_cycle_time - current_time) > NONE_MIN_INTERVAL then
      { thread_list := s.thread_list, next_cycle_time := s.next_cycle_time,
        trace := trace1 ++ [Call.sleep (wrapLong (s.next_cycle_time - current_time))] }
    else
      { thread_list := s.thread_list,
        next_cycle_time := wrapLong (current_time + NONE_MIN_INTERVAL),
        trace := trace1 ++ [Call.sleep NONE_MIN_INTERVAL] }
  else
    { thread_list := s.thread_list, next_cycle_time := s.next_cycle_time,
      trace := s.trace ++ [Call.sleep env._interval] }

/-- One iteration of the `while (_running)` body, lines 104-146: the paused
branch, or target advance, selection loop and pacing. -/
def timerLoopBody (env : Env) (s : TimerState) : Option TimerState :=
  if env._enabled s.trace.length then
    match advanceTarget env s with
    | some s1 =>
      match selectCycle env s1.thread_list s1.trace with
      | some r =>
        some (pace env { thread_list := r.thread_list,
                         next_cycle_time := s1.next_cycle_time, trace := r.trace })
      | none => none
    | none => none
  else
    some { thread_list := s.thread_list, next_cycle_time := s.next_cycle_time,
           trace := s.trace ++ [Call.sleep env._interval] }

/-! ## Concrete inputs -/

/-- A context in the middle of a page, no syscall around, no known library. -/
def midPageContext : SavedContext :=
  { SYSCALL_SIZE := 2, pc := 4112, isSyscall := fun _ => false,
    checkInterruptedSyscall := false, findLibraryByAddress := fun _ => false }

/-- A context whose program counter is at a syscall instruction. -/
def atSyscallContext : SavedContext :=
  { SYSCALL_SIZE := 2, pc := 4096, isSyscall := fun addr => addr == 4096,
    checkInterruptedSyscall := false, findLibraryByAddress := fun _ => false }

/-- A context at the start of a page whose previous instruction lies in a
known library. -/
def pageStartContext : SavedContext :=
  { SYSCALL_SIZE := 2, pc := 8192, isSyscall := fun addr => addr == 8190,
    checkInterruptedSyscall := true, findLibraryByAddress := fun addr => addr == 8190 }

/-- Surroundings in which idle threads are sampled, no filter is enabled and
every delivery fails (the threads have gone). -/
def failingEnv : Env :=
  { self := 100, thread_filter_enabled := false, sample_idle_threads := true,
    _signal := 27, _interval := 10000000, _enabled := fun _ => true,
    accept := fun _ _ => true, filterSize := fun _ => 0,
    threadState := fun _ _ => ThreadState.THREAD_RUNNING,
    sendSignalToThread := fun _ _ _ => false, nanotime := fun _ => 0 }

/-- Nine threads other than the control thread. -/
def nineThreads : ThreadList := { ids := [1, 2, 3, 4, 5, 6, 7, 8, 9], cursor := 0 }

/-- Surroundings as the statics of lines 18-20 leave them when nothing assigns
them: `_interval = 0` and `_sample_idle_threads = false`; every delivery
succeeds. -/
def unsetEnv : Env :=
  { self := 100, thread_filter_enabled := false, sample_idle_threads := false,
    _signal := 27, _interval := 0, _enabled := fun _ => true,
    accept := fun _ _ => true, filterSize := fun _ => 0,
    threadState := fun _ _ => ThreadState.THREAD_RUNNING,
    sendSignalToThread := fun _ _ _ => true, nanotime := fun _ => 0 }

/-! ## signalHandler (lines 55-63) -/

/-- Modelled from the spec: the sample kinds of the recorder interface
`record_sample(context, weight, kind, notification)`, declared in a header that
is not among the sources; `PERF_SAMPLE` is the one this file uses. -/
inductive EventType where
  | PERF_SAMPLE
  | OTHER_SAMPLE
  deriving DecidableEq, Repr

/-- The calls `signalHandler` makes, with what they returned.  The event passed
to `Profiler::recordSample` is given by the tick count it was built from. -/
inductive HandlerCall where
  | isEventWriterThread (result : Bool)
  | ticks (result : Nat)
  | recordSample (ucontext : Nat) (weight : Int) (kind : EventType) (event_ticks : Nat)
  | cerr (text : String)
  deriving DecidableEq, Repr

/-- The function `NoneEvent::signalHandler(int signo, siginfo_t *siginfo, void *ucontext)`,
as the calls it makes; `writer` is the answer of
`Profiler::isEventWriterThread()` and `now` the value of `TSC::ticks()`. -/
def signalHandler (writer : Bool) (now : Nat) (_signo : Int) (_siginfo : Nat)
    (ucontext : Nat) : List HandlerCall :=
  if !writer then
    [HandlerCall.isEventWriterThread writer, HandlerCall.ticks now,
      HandlerCall.recordSample ucontext 1 EventType.PERF_SAMPLE now]
  else
    [HandlerCall.isEventWriterThread writer, HandlerCall.cerr "unhandling"]

/-- The `Profiler::recordSample` calls of a trace, in order. -/
def recordSamples : List HandlerCall → List (Nat × Int × EventType × Nat)
  | [] => []
  | HandlerCall.recordSample ucontext weight kind event_ticks :: rest =>
    (ucontext, weight, kind, event_ticks) :: recordSamples rest
  | _ :: rest => recordSamples rest

/-! ## start (lines 65-86) -/

/-- What is registered for a signal: the engine's `signalHandler` or some other
disposition. -/
inductive Handler where
  | signalHandler
  | other (action : Nat)
  deriving DecidableEq, Repr

/-- The result type `Error` of the engine interface: `Error::OK` or an error
with its message. -/
inductive Error where
  | OK
  | message (text : String)
  deriving DecidableEq, Repr

/-- The part of `Arguments` that `start` reads. -/
structure Arguments where
  _signal : Int

/-- The engine's members and the process-wide signal registrations, that is
everything `start` writes. -/
structure Engine where
  _signal : Int
  _running : Bool
  _thread : Nat
  handlers : Int → Handler

/-- The collaborators of `start`: `OS::getProfilingSignal`, and
`pthread_create` by its return code and the thread handle it stores on
success. -/
structure StartEnv where
  getProfilingSignal : Int → Int
  pthread_create : Int
  new_thread : Nat

/-- Modelled from the spec: `OS::installSignalHandler`, declared in a header
that is not among the sources; the interface
`install_handler(signal_id, callback) -> previous_handler`.  Returns the
previous registration and the new table. -/
def installSignalHandler (handlers : Int → Handler) (signo : Int) (action : Handler) :
    Handler × (Int → Handler) :=
  (handlers signo, fun n => if n = signo then action else handlers n)

/-- The signal of lines 69-71 for a requested value `args._signal`. -/
def resolveSignal (env : StartEnv) (requested : Int) : Int :=
  if requested = 0 then env.getProfilingSignal 1
  else if (requested >>> (8 : Nat)) > 0 then requested >>> (8 : Nat) else requested

/-- The function `NoneEvent::start(Arguments &args)`: the result and the state it
leaves. -/
def start (env : StartEnv) (args : Arguments) (e : Engine) : Error × Engine :=
  let _signal := resolveSignal env args._signal
  let installed := installSignalHandler e.handlers _signal Handler.signalHandler
  let e1 : Engine :=
    { _signal := _signal, _running := true, _thread := e._thread, handlers := installed.2 }
  if env.pthread_create ≠ 0 then
    (Error.message "Unable to create timer thread", e1)
  else
    (Error.OK,
      { _signal := e1._signal, _running := e1._running, _thread := env.new_thread,
        handlers := e1.handlers })

/-- An engine that has not been started: nothing registered for any signal. -/
def freshEngine : Engine :=
  { _signal := 0, _running := false, _thread := 0, handlers := fun _ => Handler.other 0 }

/-- An engine as a successful `start` with signal 27 leaves it. -/
def startedEngine : Engine :=
  { _signal := 27, _running := true, _thread := 1,
    handlers := fun n => if n = 27 then Handler.signalHandler else Handler.other 0 }

/-- Collaborators for which thread creation fails (`EAGAIN`). -/
def failingStartEnv : StartEnv :=
  { getProfilingSignal := fun _ => 27, pthread_create := 11, new_thread := 1 }

/-- Collaborators for which thread creation succeeds. -/
def workingStartEnv : StartEnv :=
  { getProfilingSignal := fun _ => 27, pthread_create := 0, new_thread := 1 }

/-- Surroundings in which sampling is paused. -/
def pausedEnv : Env :=
  { self := 100, thread_filter_enabled := false, sample_idle_threads := true,
    _signal := 27, _interval := 10000000, _enabled := fun _ => false,
    accept := fun _ _ => true, filterSize := fun _ => 0,
    threadState := fun _ _ => ThreadState.THREAD_RUNNING,
    sendSignalToThread := fun _ _ _ => true, nanotime := fun _ => 0 }

/-! ## The calls of a cycle, pass by pass -/

/-- The values `thread_list->next()` returned in a trace, in order. -/
def nextResults : List Call → List Int
  | [] => []
  | Call.next result :: rest => result :: nextResults rest
  | _ :: rest => nextResults rest

/-- The calls one pass through the loop body adds to the trace. -/
def bodyCalls (env : Env) (s : LoopState) : List Call :=
  (selectBody env s).1.trace.drop s.trace.length

/-- The calls of a pass that read the thread id `id`: the `next()` call, then
only calls about `id` (filter, state query, signal), at most one of them a
`sendSignalToThread`. -/
def PassCalls (env : Env) (id : Int) (calls : List Call) : Prop :=
  ∃ rest, calls = Call.next id :: rest ∧
    (∀ c ∈ rest, (∃ a, c = Call.accept id a) ∨ (∃ st, c = Call.threadState id st) ∨
      ∃ ok, c = Call.sendSignalToThread id env._signal ok) ∧
    (sendCalls rest).length ≤ 1

/-- A run of the loop of lines 117-134 from one state to another with the
calls it makes: the loop test fails (`done`), or a pass leaves by `break`
(`stop`), or a pass is followed by the rest of the run (`pass`). -/
inductive Run (env : Env) : LoopState → LoopState → List Call → Prop where
  | done (s : LoopState) (h : ¬ s.count < NONE_THREADS_PER_TICK) : Run env s s []
  | stop (s : LoopState) (h : s.count < NONE_THREADS_PER_TICK)
      (hb : (selectBody env s).2 = true) : Run env s (selectBody env s).1 (bodyCalls env s)
  | pass (s r : LoopState) (new : List Call) (h : s.count < NONE_THREADS_PER_TICK)
      (hb : (selectBody env s).2 = false) (rest : Run env (selectBody env s).1 r new) :
      Run env s r (bodyCalls env s ++ new)

/-- An id that the loop does not skip: it is not `self` and, when the filter
is enabled, the filter accepts it. -/
def eligible (env : Env) (accepted : Int → Bool) (id : Int) : Bool :=
  id != env.self && (!env.thread_filter_enabled || accepted id)

/-- Consecutive iterations of the timerLoop body up to and including the first
one whose cycle reads the sentinel from `next()`; `cycles` bounds their
number, `none` when it runs out. -/
def timerLoopSweep (env : Env) : Nat → TimerState → Option TimerState
  | 0, _ => none
  | cycles + 1, s =>
    match timerLoopBody env s with
    | none => none
    | some r =>
      if Call.next (-1) ∈ r.trace.drop s.trace.length then some r
      else timerLoopSweep env cycles r

/-- Surroundings with idle sampling on, a filter that rejects the odd ids, and
deliveries that succeed. -/
def fairEnv : Env :=
  { self := 4, thread_filter_enabled := true, sample_idle_threads := true,
    _signal := 27, _interval := 10000000, _enabled := fun _ => true,
    accept := fun _ id => id % 2 == 0, filterSize := fun _ => 6,
    threadState := fun _ _ => ThreadState.THREAD_RUNNING,
    sendSignalToThread := fun _ _ _ => true, nanotime := fun _ => 0 }

/-- Twenty-four thread ids, the control thread 4 among them. -/
def manyThreads : ThreadList :=
  { ids := [1, 2, 3, 4, 5, 6, 7, 8, 9, 10, 11, 12, 13, 14, 15, 16, 17, 18, 19, 20, 21, 22,
      23, 24],
    cursor := 0 }

/-! ## Arithmetic of adjustInterval -/

theorem wrapInt_of_range (x : Int) (h1 : -2147483648 ≤ x) (h2 : x ≤ 2147483647) :
    wrapInt x = x := by
  unfold wrapInt; omega

theorem tdiv_eight_of_nonneg (x : Int) (h : 0 ≤ x) : Int.tdiv x 8 = x / 8 :=
  Int.tdiv_eq_ediv h (by decide)

theorem tdiv_eight_of_nonpos (x : Int) (h : x ≤ 0) : Int.tdiv x 8 = -((-x) / 8) := by
  have h1 : x = -(-x) := by omega
  rw [h1, Int.neg_tdiv, tdiv_eight_of_nonneg _ (by omega)]
  simp

/-- The divisor of line 50 while `thread_count + 8 - 1` wraps to itself. -/
theorem adjustIntervalDivisor_low (n : Int) (h1 : 8 < n) (h2 : n ≤ 2147483640) :
    adjustIntervalDivisor n = some ((n + 7) / 8) := by
  have hw : wrapInt (wrapInt (n + 8) - 1) = n + 7 := by
    unfold wrapInt; omega
  unfold adjustIntervalDivisor NONE_THREADS_PER_TICK divInt
  rw [hw, if_neg (by omega), if_neg (by unfold INT_MIN; omega),
    tdiv_eight_of_nonneg _ (by omega)]

/-- The divisor of line 50 once `thread_count + 8 - 1` has wrapped. -/
theorem adjustIntervalDivisor_high (n : Int) (h1 : 2147483641 ≤ n) (h2 : n ≤ 2147483647) :
    adjustIntervalDivisor n = some (-((4294967289 - n) / 8)) := by
  have hw : wrapInt (wrapInt (n + 8) - 1) = n + 7 - 4294967296 := by
    unfold wrapInt; omega
  unfold adjustIntervalDivisor NONE_THREADS_PER_TICK divInt
  rw [hw, if_neg (by omega), if_neg (by unfold INT_MIN; omega),
    tdiv_eight_of_nonpos _ (by omega)]
  congr 3; omega

theorem divLong_of_pos (I d : Int) (hI : 0 ≤ I) (hd : 0 < d) : divLong I d = some (I / d) := by
  unfold divLong
  rw [if_neg (by omega), if_neg (by omega), Int.tdiv_eq_ediv hI (by omega)]

theorem divLong_of_neg (I d : Int) (hI : 0 ≤ I) (hd : 1 < d) :
    divLong I (-d) = some (-(I / d)) := by
  unfold divLong
  rw [if_neg (by omega), if_neg (by omega), Int.tdiv_neg, Int.tdiv_eq_ediv hI (by omega)]

theorem ediv_antitone (I a b : Int) (hI : 0 ≤ I) (ha : 0 < a) (hab : a ≤ b) :
    I / b ≤ I / a := by
  apply Int.le_ediv_of_mul_le ha
  calc I / b * a ≤ I / b * b :=
        Int.mul_le_mul_of_nonneg_left hab (Int.ediv_nonneg hI (by omega))
    _ ≤ I := Int.ediv_mul_le I (by omega)

theorem adjustInterval_low (I n : Int) (hI : 0 ≤ I) (h1 : 8 < n) (h2 : n ≤ 2147483640) :
    adjustInterval I n = some (I / ((n + 7) / 8)) := by
  unfold adjustInterval
  rw [if_pos (by unfold NONE_THREADS_PER_TICK; omega), adjustIntervalDivisor_low n h1 h2]
  simp only [Option.bind_eq_bind, Option.some_bind]
  exact divLong_of_pos I _ hI (by omega)

theorem adjustInterval_high (I n : Int) (hI : 0 ≤ I) (h1 : 2147483641 ≤ n)
    (h2 : n ≤ 2147483647) :
    adjustInterval I n = some (-(I / ((4294967289 - n) / 8))) := by
  unfold adjustInterval
  rw [if_pos (by unfold NONE_THREADS_PER_TICK; omega), adjustIntervalDivisor_high n h1 h2]
  simp only [Option.bind_eq_bind, Option.some_bind]
  exact divLong_of_neg I _ hI (by omega)

/-! ## Traces and the selection loop -/

theorem sendCalls_append (a b : List Call) : sendCalls (a ++ b) = sendCalls a ++ sendCalls b := by
  induction a with
  | nil => rfl
  | cons c rest ih => cases c <;> simp [sendCalls, ih]

theorem queriedIds_append (a b : List Call) :
    queriedIds (a ++ b) = queriedIds a ++ queriedIds b := by
  induction a with
  | nil => rfl
  | cons c rest ih => cases c <;> simp [queriedIds, ih]

theorem sleeps_append (a b : List Call) : sleeps (a ++ b) = sleeps a ++ sleeps b := by
  induction a with
  | nil => rfl
  | cons c rest ih => cases c <;> simp [sleeps, ih]

theorem signalledIds_append (a b : List Call) :
    signalledIds (a ++ b) = signalledIds a ++ signalledIds b := by
  simp [signalledIds, sendCalls_append]

theorem deliveredCount_append (a b : List Call) :
    deliveredCount (a ++ b) = deliveredCount a + deliveredCount b := by
  simp [deliveredCount, sendCalls_append]

theorem continues_refl (a : List Call) : Continues a a := ⟨[], by simp⟩

theorem continues_append {a b : List Call} (h : Continues a b) (c : List Call) :
    Continues a (b ++ c) := by
  obtain ⟨new, rfl⟩ := h
  exact ⟨new ++ c, by simp⟩

theorem continues_trans {a b c : List Call} (h1 : Continues a b) (h2 : Continues b c) :
    Continues a c := by
  obtain ⟨n1, rfl⟩ := h1
  obtain ⟨n2, rfl⟩ := h2
  exact ⟨n1 ++ n2, by simp⟩

theorem keeps_refl (env : Env) (s : LoopState) : Keeps env s s :=
  ⟨continues_refl _, rfl, rfl, rfl, rfl, le_refl _⟩

theorem keeps_trans {env : Env} {a b c : LoopState} (h1 : Keeps env a b) (h2 : Keeps env b c) :
    Keeps env a c :=
  ⟨continues_trans h1.continues h2.continues, by have := h1.counted; have := h2.counted; omega,
    h2.sent.trans h1.sent, h2.queried.trans h1.queried, h2.ids.trans h1.ids,
    le_trans h1.grows h2.grows⟩

theorem next_ids (l : ThreadList) : l.next.2.ids = l.ids := by
  unfold ThreadList.next
  split <;> rfl


theorem skipThread_continues (env : Env) (id : Int) (tr : List Call) :
    Continues tr (skipThread env id tr).2 := by
  unfold skipThread
  split_ifs
  · exact continues_refl _
  · exact continues_append (continues_refl _) _
  · exact continues_refl _

theorem skipThread_sendCalls (env : Env) (id : Int) (tr : List Call) :
    sendCalls (skipThread env id tr).2 = sendCalls tr := by
  unfold skipThread
  split_ifs <;> simp [sendCalls_append, sendCalls]

theorem skipThread_queriedIds (env : Env) (id : Int) (tr : List Call) :
    queriedIds (skipThread env id tr).2 = queriedIds tr := by
  unfold skipThread
  split_ifs <;> simp [queriedIds_append, queriedIds]

theorem skipThread_self (env : Env) (tr : List Call) : (skipThread env env.self tr).1 = true := by
  simp [skipThread]

theorem signalThread_keeps (env : Env) (id : Int) (tl : ThreadList) (count : Int)
    (tr : List Call) (hid : id ≠ env.self) (h0 : 0 ≤ count)
    (h : count < NONE_THREADS_PER_TICK) :
    Keeps env { thread_list := tl, count := count, trace := tr }
      (signalThread env id tl count tr) := by
  have hw : wrapInt (count + 1) = count + 1 := by
    unfold NONE_THREADS_PER_TICK at h
    unfold wrapInt; omega
  have hne : ¬ (id = env.self) := hid
  simp only [signalThread, wantsSignal]
  split_ifs
  all_goals constructor
  all_goals simp_all [sendCalls_append, queriedIds_append, signalledIds, deliveredCount,
    sendCalls, queriedIds, continues_refl, List.count_cons]
  all_goals first | exact continues_append (continues_refl _) _ | omega

theorem selectBody_keeps (env : Env) (s : LoopState) (h0 : 0 ≤ s.count)
    (h : s.count < NONE_THREADS_PER_TICK) : Keeps env s (selectBody env s).1 := by
  simp only [selectBody]
  split_ifs with h1 h2
  · refine ⟨continues_append (continues_append (continues_refl _) _) _, ?_, ?_, ?_, ?_, ?_⟩
    all_goals simp [sendCalls_append, queriedIds_append, signalledIds, deliveredCount,
      sendCalls, queriedIds, ThreadList.rewind, next_ids]
  · refine ⟨continues_trans (continues_append (continues_refl _) _)
        (skipThread_continues _ _ _),
      ?_, ?_, ?_, ?_, ?_⟩
    all_goals simp [skipThread_sendCalls, skipThread_queriedIds, sendCalls_append,
      queriedIds_append, signalledIds, deliveredCount, sendCalls, queriedIds, next_ids]
  · have hid : s.thread_list.next.1 ≠ env.self := by
      intro he
      rw [he, skipThread_self] at h2
      exact h2 rfl
    have k := signalThread_keeps env s.thread_list.next.1 s.thread_list.next.2 s.count
      (skipThread env s.thread_list.next.1 (s.trace ++ [Call.next s.thread_list.next.1])).2
      hid h0 h
    constructor
    · exact continues_trans
        (continues_trans (continues_append (continues_refl _) _) (skipThread_continues _ _ _))
        k.continues
    · have := k.counted
      simp [skipThread_sendCalls, deliveredCount, sendCalls_append, sendCalls] at this ⊢
      exact this
    · have := k.sent
      simp [skipThread_sendCalls, signalledIds, sendCalls_append, sendCalls] at this ⊢
      exact this
    · have := k.queried
      simp [skipThread_queriedIds, queriedIds_append, queriedIds] at this ⊢
      exact this
    · have := k.ids
      simp [next_ids] at this ⊢
      exact this
    · exact k.grows

theorem signalThread_thread_list (env : Env) (id : Int) (tl : ThreadList) (count : Int)
    (tr : List Call) : (signalThread env id tl count tr).thread_list = tl := by
  simp only [signalThread]
  split_ifs <;> rfl

theorem signalThread_count_le (env : Env) (id : Int) (tl : ThreadList) (count : Int)
    (tr : List Call) (h0 : 0 ≤ count) (h : count < NONE_THREADS_PER_TICK) :
    (signalThread env id tl count tr).count ≤ count + 1 := by
  have hw : wrapInt (count + 1) = count + 1 := by
    unfold NONE_THREADS_PER_TICK at h
    unfold wrapInt; omega
  simp only [signalThread]
  split_ifs <;> simp [hw]

theorem selectBody_count_le (env : Env) (s : LoopState) (h0 : 0 ≤ s.count)
    (h : s.count < NONE_THREADS_PER_TICK) : (selectBody env s).1.count ≤ s.count + 1 := by
  simp only [selectBody]
  split_ifs
  · simp
  · simp
  · exact signalThread_count_le env _ _ _ _ h0 h

/-- A pass that does not leave the loop has consumed one id of the list. -/
theorem selectBody_progress (env : Env) (s : LoopState) (h : (selectBody env s).2 = false) :
    (selectBody env s).1.thread_list =
        { ids := s.thread_list.ids, cursor := s.thread_list.cursor + 1 } ∧
      s.thread_list.cursor < s.thread_list.ids.length := by
  have hnext : s.thread_list.next.1 ≠ -1 →
      s.thread_list.next.2 = { ids := s.thread_list.ids, cursor := s.thread_list.cursor + 1 } ∧
        s.thread_list.cursor < s.thread_list.ids.length := by
    unfold ThreadList.next
    cases hg : s.thread_list.ids.get? s.thread_list.cursor with
    | none => intro hne; exact absurd rfl hne
    | some id =>
      intro _
      refine ⟨rfl, ?_⟩
      by_contra hlt
      rw [List.get?_eq_none.mpr (by omega)] at hg
      cases hg
  simp only [selectBody] at h ⊢
  split_ifs at h ⊢ with h1 h2
  · exact hnext h1
  · simp only [signalThread_thread_list]
    exact hnext h1

/-- The selection loop keeps its invariant and leaves `count` within the
budget. -/
theorem selectLoop_keeps (env : Env) (fuel : Nat) :
    ∀ s r : LoopState, 0 ≤ s.count → s.count ≤ NONE_THREADS_PER_TICK →
      selectLoop env fuel s = some r → Keeps env s r ∧ r.count ≤ NONE_THREADS_PER_TICK := by
  induction fuel with
  | zero =>
    intro s r _ h8 h
    simp only [selectLoop] at h
    split_ifs at h
    cases h
    exact ⟨keeps_refl env s, h8⟩
  | succ fuel ih =>
    intro s r h0 h8 h
    simp only [selectLoop] at h
    split_ifs at h with hc hb
    · cases h
      have hle := selectBody_count_le env s h0 hc
      exact ⟨selectBody_keeps env s h0 hc, by omega⟩
    · have hk := selectBody_keeps env s h0 hc
      have hle := selectBody_count_le env s h0 hc
      have hg := hk.grows
      obtain ⟨k2, hr⟩ := ih _ r (by omega) (by omega) h
      exact ⟨keeps_trans hk k2, hr⟩
    · cases h
      exact ⟨keeps_refl env s, h8⟩

/-- The selection loop ends: one unit of fuel for each remaining id and one
for the sentinel are enough. -/
theorem selectLoop_total (env : Env) (fuel : Nat) :
    ∀ s : LoopState, s.thread_list.ids.length - s.thread_list.cursor + 1 ≤ fuel →
      ∃ r, selectLoop env fuel s = some r := by
  induction fuel with
  | zero => intro s h; omega
  | succ fuel ih =>
    intro s h
    simp only [selectLoop]
    split_ifs with hc hb
    · exact ⟨_, rfl⟩
    · have hp := selectBody_progress env s (by simpa using hb)
      apply ih
      rw [hp.1]
      have := hp.2
      simp only
      omega
    · exact ⟨_, rfl⟩

/-- One cycle returns, and what it keeps from the state it started in. -/
theorem selectCycle_keeps (env : Env) (tl : ThreadList) (trace : List Call) :
    ∃ r, selectCycle env tl trace = some r ∧
      Keeps env { thread_list := tl, count := 0, trace := trace } r ∧
      r.count ≤ NONE_THREADS_PER_TICK := by
  obtain ⟨r, hr⟩ := selectLoop_total env (tl.ids.length - tl.cursor + 1)
    { thread_list := tl, count := 0, trace := trace } (le_refl _)
  exact ⟨r, hr, selectLoop_keeps env _ _ r (le_refl _) (by simp [NONE_THREADS_PER_TICK]) hr⟩

theorem ceil_div_eight (n : Int) : Int.ceil ((n : ℚ) / 8) = (n + 7) / 8 := by
  rw [Int.ceil_eq_iff]
  have h1 : 8 * ((n + 7) / 8) ≤ n + 7 := by omega
  have h2 : n ≤ 8 * ((n + 7) / 8) := by omega
  have h1q : (8 : ℚ) * (((n + 7) / 8 : Int) : ℚ) ≤ (n : ℚ) + 7 := by exact_mod_cast h1
  have h2q : (n : ℚ) ≤ 8 * (((n + 7) / 8 : Int) : ℚ) := by exact_mod_cast h2
  constructor
  · rw [lt_div_iff₀ (by norm_num)]; linarith
  · rw [div_le_iff₀ (by norm_num)]; linarith

/-! ## The classifier and the pacing -/

theorem prevPcReadable_same_page (c : SavedContext) (trace : List Access)
    (h : (c.pc &&& 0xfff) ≥ c.SYSCALL_SIZE) : prevPcReadable c trace = (true, trace) :=
  if_pos h

theorem prevPcReadable_other_page (c : SavedContext) (trace : List Access)
    (h : ¬ (c.pc &&& 0xfff) ≥ c.SYSCALL_SIZE) :
    prevPcReadable c trace =
      (c.findLibraryByAddress (prevPc c),
        trace ++ [Access.findLibraryByAddress (prevPc c)
          (c.findLibraryByAddress (prevPc c))]) :=
  if_neg h

/-- With idle threads sampled the pacing of lines 137-143 does keep the floor:
the duration it passes to `OS::sleep` is at least `NONE_MIN_INTERVAL`. -/
theorem pace_idle_floor (env : Env) (s : TimerState) (h : env.sample_idle_threads = true) :
    ∃ d, (pace env s).trace = s.trace ++ [Call.nanotime (env.nanotime s.trace.length),
      Call.sleep d] ∧ NONE_MIN_INTERVAL ≤ d := by
  simp only [pace, h, if_true]
  split_ifs with hc
  · exact ⟨_, by simp, le_of_lt hc⟩
  · exact ⟨_, by simp, le_refl _⟩

/-! ## Claims -/

/-- C1 (as amended): for every base interval `I` and every thread count `n`
above the throttle for which `n + NONE_THREADS_PER_TICK` still fits a C `int`,
`adjustInterval(I, n)` is `I` divided, with C integer division, by the ceiling
of the exact quotient `n / 8`. -/
theorem adjustInterval_eq_div_ceil (I n : Int) (h1 : NONE_THREADS_PER_TICK < n)
    (h2 : n + NONE_THREADS_PER_TICK ≤ INT_MAX) :
    adjustInterval I n = some (Int.tdiv I (Int.ceil ((n : ℚ) / 8))) := by
  unfold NONE_THREADS_PER_TICK at h1 h2
  unfold INT_MAX at h2
  rw [ceil_div_eight]
  unfold adjustInterval
  rw [if_pos (by unfold NONE_THREADS_PER_TICK; omega),
    adjustIntervalDivisor_low n h1 (by omega)]
  simp only [Option.bind_eq_bind, Option.some_bind]
  unfold divLong
  rw [if_neg (by omega), if_neg (by omega)]

/-- C1, witness: the scenario of the spec, base interval 10,000,000 ns and 20
threads, gives 10,000,000 / 3 = 3,333,333 ns. -/
theorem adjustInterval_eq_div_ceil_witness :
    NONE_THREADS_PER_TICK < 20 ∧ (20 : Int) + NONE_THREADS_PER_TICK ≤ INT_MAX ∧
      adjustInterval 10000000 20 = some (Int.tdiv 10000000 (Int.ceil (((20 : Int) : ℚ) / 8))) ∧
      adjustInterval 10000000 20 = some 3333333 :=
  ⟨by decide, by decide, adjustInterval_eq_div_ceil 10000000 20 (by decide) (by decide),
    by decide⟩

/-- C1, counterexample: at the thread count `INT_MAX` the sum
`thread_count + 8 - 1` leaves the range of `int`; the divisor comes out as
-268435455 and a base interval of one second is turned into -3 ns, while the
interval divided by the ceiling of `INT_MAX / 8` is 3 ns. -/
theorem adjustInterval_overflow :
    NONE_THREADS_PER_TICK < 2147483647 ∧ (2147483647 : Int) ≤ INT_MAX ∧
      adjustIntervalDivisor 2147483647 = some (-268435455) ∧
      adjustInterval 1000000000 2147483647 = some (-3) ∧
      Int.tdiv 1000000000 (Int.ceil (((2147483647 : Int) : ℚ) / 8)) = 3 ∧
      adjustInterval 1000000000 2147483647 ≠
        some (Int.tdiv 1000000000 (Int.ceil (((2147483647 : Int) : ℚ) / 8))) := by
  have hc : Int.ceil (((2147483647 : Int) : ℚ) / 8) = 268435456 := by
    rw [ceil_div_eight]; decide
  rw [hc]
  decide

/-- C2: for every base interval `I` and every thread count `n` that does not
exceed the throttle (zero and negative counts included), `adjustInterval(I, n)`
returns `I` unchanged. -/
theorem adjustInterval_at_most_throttle (I n : Int) (h : n ≤ NONE_THREADS_PER_TICK) :
    adjustInterval I n = some I := by
  unfold adjustInterval
  rw [if_neg (by omega)]

/-- C2, witness: the scenario of the spec, 5 threads leave 10,000,000 ns
unchanged. -/
theorem adjustInterval_at_most_throttle_witness :
    (5 : Int) ≤ NONE_THREADS_PER_TICK ∧ adjustInterval 10000000 5 = some 10000000 :=
  ⟨by decide, adjustInterval_at_most_throttle 10000000 5 (by decide)⟩

/-- C3: `adjustInterval` is monotonically non-increasing in the thread count:
for every base interval `I ≥ 0` and all thread counts `n1 ≤ n2` of type `int`
above the throttle, both calls return and
`adjustInterval(I, n2) ≤ adjustInterval(I, n1)`. -/
theorem adjustInterval_antitone (I n1 n2 : Int) (hI : 0 ≤ I)
    (h1 : NONE_THREADS_PER_TICK < n1) (h12 : n1 ≤ n2) (h2 : n2 ≤ INT_MAX) :
    ∃ a b, adjustInterval I n1 = some a ∧ adjustInterval I n2 = some b ∧ b ≤ a := by
  unfold NONE_THREADS_PER_TICK at h1
  unfold INT_MAX at h2
  by_cases c2 : n2 ≤ 2147483640
  · refine ⟨_, _, adjustInterval_low I n1 hI h1 (by omega),
      adjustInterval_low I n2 hI (by omega) c2, ?_⟩
    exact ediv_antitone I _ _ hI (by omega) (by omega)
  · by_cases c1 : n1 ≤ 2147483640
    · refine ⟨_, _, adjustInterval_low I n1 hI h1 c1,
        adjustInterval_high I n2 hI (by omega) h2, ?_⟩
      have ha : 0 ≤ I / ((n1 + 7) / 8) := Int.ediv_nonneg hI (by omega)
      have hb : 0 ≤ I / ((4294967289 - n2) / 8) := Int.ediv_nonneg hI (by omega)
      omega
    · refine ⟨_, _, adjustInterval_high I n1 hI (by omega) (by omega),
        adjustInterval_high I n2 hI (by omega) h2, ?_⟩
      have := ediv_antitone I ((4294967289 - n2) / 8) ((4294967289 - n1) / 8) hI
        (by omega) (by omega)
      omega

/-- C3, witness: 10,000,000 ns with 9 and with 20 threads. -/
theorem adjustInterval_antitone_witness :
    (0 : Int) ≤ 10000000 ∧ NONE_THREADS_PER_TICK < 9 ∧ (9 : Int) ≤ 20 ∧ (20 : Int) ≤ INT_MAX ∧
      ∃ a b, adjustInterval 10000000 9 = some a ∧ adjustInterval 10000000 20 = some b ∧
        b ≤ a :=
  ⟨by decide, by decide, by decide, by decide,
    adjustInterval_antitone 10000000 9 20 (by decide) (by decide) (by decide) (by decide)⟩

/-- C4: `adjustInterval` is total on non-negative inputs: for every interval
`I ≥ 0` and every thread count `n ≥ 0` of type `int`, whenever the division of
lines 49-50 is executed its divisor is defined and not zero, and the function
returns a value. -/
theorem adjustInterval_total (I n : Int) (hI : 0 ≤ I) (hn : 0 ≤ n) (hmax : n ≤ INT_MAX) :
    (NONE_THREADS_PER_TICK < n → ∃ d, adjustIntervalDivisor n = some d ∧ d ≠ 0) ∧
      ∃ r, adjustInterval I n = some r := by
  unfold INT_MAX at hmax
  by_cases c : n ≤ 8
  · refine ⟨fun h => ?_, I, ?_⟩
    · unfold NONE_THREADS_PER_TICK at h; omega
    · unfold adjustInterval NONE_THREADS_PER_TICK; rw [if_neg (by omega)]
  · by_cases c2 : n ≤ 2147483640
    · exact ⟨fun _ => ⟨_, adjustIntervalDivisor_low n (by omega) c2, by omega⟩,
        _, adjustInterval_low I n hI (by omega) c2⟩
    · exact ⟨fun _ => ⟨_, adjustIntervalDivisor_high n (by omega) hmax, by omega⟩,
        _, adjustInterval_high I n hI (by omega) hmax⟩

/-- C4, witness: the largest thread count an `int` holds. -/
theorem adjustInterval_total_witness :
    (0 : Int) ≤ 10000000 ∧ (0 : Int) ≤ 2147483647 ∧ (2147483647 : Int) ≤ INT_MAX ∧
      (NONE_THREADS_PER_TICK < 2147483647 →
        ∃ d, adjustIntervalDivisor 2147483647 = some d ∧ d ≠ 0) ∧
      ∃ r, adjustInterval 10000000 2147483647 = some r :=
  ⟨by decide, by decide, by decide,
    adjustInterval_total 10000000 2147483647 (by decide) (by decide) (by decide)⟩

/-- C5: a saved context whose program counter points exactly at a syscall
instruction is classified `THREAD_SLEEPING`, whatever
`checkInterruptedSyscall()`, the page offset of `pc` and
`findLibraryByAddress` return. -/
theorem getThreadState_at_syscall (c : SavedContext) (h : c.isSyscall c.pc = true) :
    getThreadState c = ThreadState.THREAD_SLEEPING := by
  simp [getThreadState, getThreadStateTrace, h]

/-- C5, witness: a program counter at a syscall, the interrupted-syscall
check failing and no library known. -/
theorem getThreadState_at_syscall_witness :
    atSyscallContext.isSyscall atSyscallContext.pc = true ∧
      getThreadState atSyscallContext = ThreadState.THREAD_SLEEPING :=
  ⟨by decide, getThreadState_at_syscall atSyscallContext (by decide)⟩

/-- C6: `getThreadState` returns `THREAD_SLEEPING` exactly when the
instruction at `pc` is a syscall, or the instruction at `pc - SYSCALL_SIZE`
is a syscall, `checkInterruptedSyscall()` holds and the previous address
passed the readability guard; for every other context it returns
`THREAD_RUNNING`. -/
theorem getThreadState_sleeping_iff (c : SavedContext) :
    (getThreadState c = ThreadState.THREAD_SLEEPING ↔ sleepingCondition c) ∧
      (¬ sleepingCondition c → getThreadState c = ThreadState.THREAD_RUNNING) := by
  unfold sleepingCondition
  by_cases h1 : c.isSyscall c.pc = true
  · simp [getThreadState, getThreadStateTrace, h1]
  · by_cases h2 : (c.pc &&& 0xfff) ≥ c.SYSCALL_SIZE
    · by_cases h3 : c.isSyscall (prevPc c) = true <;>
        by_cases h4 : c.checkInterruptedSyscall = true <;>
        simp [getThreadState, getThreadStateTrace, prevPcReadable_same_page c _ h2, h1, h2,
          h3, h4]
    · by_cases h3 : c.isSyscall (prevPc c) = true <;>
        by_cases h4 : c.checkInterruptedSyscall = true <;>
        by_cases h5 : c.findLibraryByAddress (prevPc c) = true <;>
        simp [getThreadState, getThreadStateTrace, prevPcReadable_other_page c _ h2, h1, h2,
          h3, h4, h5]

/-- C7 (as amended): every address `getThreadState` passes to
`StackFrame::isSyscall` is `pc` itself or `pc - SYSCALL_SIZE`, and the latter
is read only when the page test `(pc & 0xfff) >= SYSCALL_SIZE` passed or after
`findLibraryByAddress` returned non-NULL for it. -/
theorem getThreadState_reads_guarded (c : SavedContext) (i : Nat) (addr : Nat)
    (h : (getThreadStateTrace c).2.get? i = some (Access.isSyscall addr)) :
    addr = c.pc ∨
      (addr = prevPc c ∧
        ((c.pc &&& 0xfff) ≥ c.SYSCALL_SIZE ∨
          ∃ j, j < i ∧
            (getThreadStateTrace c).2.get? j =
              some (Access.findLibraryByAddress (prevPc c) true))) := by
  by_cases h1 : c.isSyscall c.pc = true
  · simp only [getThreadStateTrace, h1, if_true] at h
    rcases i with _ | i
    · simp at h; exact Or.inl h.symm
    · simp at h
  · by_cases h2 : (c.pc &&& 0xfff) ≥ c.SYSCALL_SIZE
    · rcases i with _ | i
      · left
        by_cases h3 : c.isSyscall (prevPc c) = true <;>
          by_cases h4 : c.checkInterruptedSyscall = true <;>
          simp [getThreadStateTrace, prevPcReadable_same_page c _ h2, h1, h3, h4] at h <;>
          exact h.symm
      · right
        refine ⟨?_, Or.inl h2⟩
        rcases i with _ | i
        · by_cases h3 : c.isSyscall (prevPc c) = true <;>
            by_cases h4 : c.checkInterruptedSyscall = true <;>
            simp [getThreadStateTrace, prevPcReadable_same_page c _ h2, h1, h3, h4] at h <;>
            exact h.symm
        · rcases i with _ | i <;>
            by_cases h3 : c.isSyscall (prevPc c) = true <;>
            by_cases h4 : c.checkInterruptedSyscall = true <;>
            simp [getThreadStateTrace, prevPcReadable_same_page c _ h2, h1, h3, h4] at h
    · by_cases h5 : c.findLibraryByAddress (prevPc c) = true
      · rcases i with _ | _ | _ | i
        · left
          by_cases h3 : c.isSyscall (prevPc c) = true <;>
            by_cases h4 : c.checkInterruptedSyscall = true <;>
            simp [getThreadStateTrace, prevPcReadable_other_page c _ h2, h1, h3, h4, h5] at h <;>
            exact h.symm
        · by_cases h3 : c.isSyscall (prevPc c) = true <;>
            by_cases h4 : c.checkInterruptedSyscall = true <;>
            simp [getThreadStateTrace, prevPcReadable_other_page c _ h2, h1, h3, h4, h5] at h
        · right
          refine ⟨?_, Or.inr ⟨1, by omega, ?_⟩⟩
          · by_cases h3 : c.isSyscall (prevPc c) = true <;>
              by_cases h4 : c.checkInterruptedSyscall = true <;>
              simp [getThreadStateTrace, prevPcReadable_other_page c _ h2, h1, h3, h4, h5]
                at h <;>
              exact h.symm
          · by_cases h3 : c.isSyscall (prevPc c) = true <;>
              by_cases h4 : c.checkInterruptedSyscall = true <;>
              simp [getThreadStateTrace, prevPcReadable_other_page c _ h2, h1, h3, h4, h5]
        · rcases i with _ | i <;>
            by_cases h3 : c.isSyscall (prevPc c) = true <;>
            by_cases h4 : c.checkInterruptedSyscall = true <;>
            simp [getThreadStateTrace, prevPcReadable_other_page c _ h2, h1, h3, h4, h5] at h
      · rcases i with _ | _ | i
        · left
          simp [getThreadStateTrace, prevPcReadable_other_page c _ h2, h1, h5] at h
          exact h.symm
        · simp [getThreadStateTrace, prevPcReadable_other_page c _ h2, h1, h5] at h
        · simp [getThreadStateTrace, prevPcReadable_other_page c _ h2, h1, h5] at h

/-- C7, counterexample: in the middle of a page with no library known the
classifier reads the instruction at `pc` and the one before it, and no
`findLibraryByAddress` lookup has verified either address. -/
theorem getThreadState_reads_unverified :
    (getThreadStateTrace midPageContext).2 = [Access.isSyscall 4112, Access.isSyscall 4110] ∧
      ¬ readsVerified (getThreadStateTrace midPageContext).2 := by
  have ht : (getThreadStateTrace midPageContext).2 =
      [Access.isSyscall 4112, Access.isSyscall 4110] := by decide
  refine ⟨ht, fun hv => ?_⟩
  rw [ht] at hv
  obtain ⟨j, hj, _⟩ := hv 0 4112 rfl
  omega

/-- C7, witness: at the start of a page the previous instruction is read at
position 2 of the trace, after the lookup that found its library. -/
theorem getThreadState_reads_guarded_witness :
    (getThreadStateTrace pageStartContext).2.get? 2 = some (Access.isSyscall 8190) ∧
      ((8190 : Nat) = pageStartContext.pc ∨
        ((8190 : Nat) = prevPc pageStartContext ∧
          ((pageStartContext.pc &&& 0xfff) ≥ pageStartContext.SYSCALL_SIZE ∨
            ∃ j, j < 2 ∧
              (getThreadStateTrace pageStartContext).2.get? j =
                some (Access.findLibraryByAddress (prevPc pageStartContext) true)))) :=
  ⟨by decide, getThreadState_reads_guarded pageStartContext 2 8190 (by decide)⟩

/-- C8 (as amended): one scheduler cycle returns and makes at most
`NONE_THREADS_PER_TICK` calls to `OS::sendSignalToThread` that succeed, hence
delivers the signal to at most that many distinct thread ids; the calls that
fail are outside the budget. -/
theorem selectCycle_delivers_at_most_budget (env : Env) (tl : ThreadList)
    (trace : List Call) :
    ∃ r new, selectCycle env tl trace = some r ∧ r.trace = trace ++ new ∧
      (deliveredCount new : Int) ≤ NONE_THREADS_PER_TICK ∧
      ((deliveredIds new).dedup.length : Int) ≤ NONE_THREADS_PER_TICK := by
  obtain ⟨r, hr, k, h8⟩ := selectCycle_keeps env tl trace
  obtain ⟨new, hnew⟩ := k.continues
  have hc := k.counted
  simp only at hnew hc
  rw [hnew, deliveredCount_append] at hc
  have hd : (deliveredCount new : Int) ≤ NONE_THREADS_PER_TICK := by
    push_cast at hc
    omega
  refine ⟨r, new, hr, hnew, hd, le_trans ?_ hd⟩
  have hl : (deliveredIds new).dedup.length ≤ deliveredCount new := by
    have := (List.dedup_sublist (deliveredIds new)).length_le
    simpa [deliveredIds, deliveredCount] using this
  exact_mod_cast hl

/-- C8, counterexample: with nine threads in the list and every delivery
failing, one cycle calls `OS::sendSignalToThread` for nine distinct thread
ids. -/
theorem selectCycle_requests_nine :
    ∃ r, selectCycle failingEnv nineThreads [] = some r ∧
      signalledIds r.trace = [1, 2, 3, 4, 5, 6, 7, 8, 9] ∧
      (signalledIds r.trace).dedup.length = 9 ∧
      ¬ (((signalledIds r.trace).dedup.length : Int) ≤ NONE_THREADS_PER_TICK) := by
  refine ⟨(selectCycle failingEnv nineThreads []).getD ⟨nineThreads, 0, []⟩, ?_, ?_, ?_, ?_⟩
  · decide
  · decide
  · decide
  · decide

/-- C9: timerLoop never targets its own thread: whatever the thread list
(the control thread's id may occur in it any number of times), the filter,
the idle-sampling flag and the answers of the collaborators, a cycle returns
and none of its `OS::sendSignalToThread` and `OS::threadState` calls has the
id `self`. -/
theorem selectCycle_excludes_self (env : Env) (tl : ThreadList) (trace : List Call) :
    ∃ r new, selectCycle env tl trace = some r ∧ r.trace = trace ++ new ∧
      env.self ∉ signalledIds new ∧ env.self ∉ queriedIds new := by
  obtain ⟨r, hr, k, _⟩ := selectCycle_keeps env tl trace
  obtain ⟨new, hnew⟩ := k.continues
  have hs := k.sent
  have hq := k.queried
  simp only at hnew hs hq
  rw [hnew, signalledIds_append, List.count_append] at hs
  rw [hnew, queriedIds_append, List.count_append] at hq
  refine ⟨r, new, hr, hnew, ?_, ?_⟩
  · apply List.count_eq_zero.mp
    omega
  · apply List.count_eq_zero.mp
    omega

/-- C10, the code at the failing input: with idle threads not sampled and the
base interval as the static member is left (0), the cycle ends with
`OS::sleep(0)`, below the floor of 100000 ns. -/
theorem timerLoopBody_sleeps_below_floor :
    ∃ r, timerLoopBody unsetEnv ⟨nineThreads, 0, []⟩ = some r ∧
      sleeps r.trace = [0] ∧ ¬ (NONE_MIN_INTERVAL ≤ 0) := by
  refine ⟨(timerLoopBody unsetEnv ⟨nineThreads, 0, []⟩).getD ⟨nineThreads, 0, []⟩, ?_, ?_, ?_⟩
  · decide
  · decide
  · decide

/-! ## The program counter and its page -/

theorem and_fff_eq_mod (x : Nat) : x &&& 0xfff = x % 4096 :=
  Nat.and_pow_two_sub_one_eq_mod x 12

theorem shiftRight_twelve (x : Nat) : x >>> 12 = x / 4096 := by
  rw [Nat.shiftRight_eq_div_pow]

theorem prevPc_of_le (c : SavedContext) (hpc : c.pc < 18446744073709551616)
    (h : c.SYSCALL_SIZE ≤ c.pc) : prevPc c = c.pc - c.SYSCALL_SIZE := by
  unfold prevPc wrapWord
  omega

theorem prevPc_ne_pc (c : SavedContext) (h1 : 1 ≤ c.SYSCALL_SIZE) (h2 : c.SYSCALL_SIZE ≤ 4096) : prevPc c ≠ c.pc := by
  unfold prevPc wrapWord
  omega

/-- The accesses of a classification whose two guards both fail. -/
theorem getThreadStateTrace_unguarded (c : SavedContext)
    (hpage : ¬ (c.pc &&& 0xfff) ≥ c.SYSCALL_SIZE)
    (hlib : c.findLibraryByAddress (prevPc c) = false) :
    getThreadStateTrace c =
      if c.isSyscall c.pc then (ThreadState.THREAD_SLEEPING, [Access.isSyscall c.pc])
      else (ThreadState.THREAD_RUNNING,
        [Access.isSyscall c.pc, Access.findLibraryByAddress (prevPc c) false]) := by
  by_cases h1 : c.isSyscall c.pc = true
  · simp [getThreadStateTrace, h1]
  · simp [getThreadStateTrace, prevPcReadable_other_page c _ hpage, h1, hlib]

/-! ## signalHandler and start -/

theorem installSignalHandler_idem (handlers : Int → Handler) (signo : Int)
    (h : handlers signo = Handler.signalHandler) :
    (installSignalHandler handlers signo Handler.signalHandler).2 = handlers := by
  funext n
  simp only [installSignalHandler]
  split_ifs with hn
  · rw [hn, h]
  · rfl

theorem adjustInterval_returns (I n : Int) (hmax : n ≤ INT_MAX) :
    ∃ r, adjustInterval I n = some r := by
  unfold INT_MAX at hmax
  by_cases c : n ≤ 8
  · exact ⟨I, by unfold adjustInterval NONE_THREADS_PER_TICK; rw [if_neg (by omega)]⟩
  · have hd : ∃ d, adjustIntervalDivisor n = some d ∧ d ≠ 0 ∧ d ≠ -1 := by
      by_cases c2 : n ≤ 2147483640
      · exact ⟨_, adjustIntervalDivisor_low n (by omega) c2, by omega, by omega⟩
      · exact ⟨_, adjustIntervalDivisor_high n (by omega) hmax, by omega, by omega⟩
    obtain ⟨d, hd, h0, h1⟩ := hd
    refine ⟨Int.tdiv I d, ?_⟩
    unfold adjustInterval
    rw [if_pos (by unfold NONE_THREADS_PER_TICK; omega), hd]
    simp only [Option.bind_eq_bind, Option.some_bind]
    unfold divLong
    rw [if_neg h0, if_neg (by omega)]


/-! ## The calls of one pass -/

theorem nextResults_append (a b : List Call) :
    nextResults (a ++ b) = nextResults a ++ nextResults b := by
  induction a with
  | nil => rfl
  | cons c rest ih => cases c <;> simp [nextResults, ih]

theorem signalThread_continues (env : Env) (id : Int) (tl : ThreadList) (count : Int)
    (tr : List Call) : Continues tr (signalThread env id tl count tr).trace := by
  simp only [signalThread, wantsSignal]
  split_ifs
  all_goals first
    | exact continues_refl _
    | exact continues_append (continues_refl _) _
    | exact continues_append (continues_append (continues_refl _) _) _

theorem selectBody_continues (env : Env) (s : LoopState) :
    Continues s.trace (selectBody env s).1.trace := by
  simp only [selectBody]
  split_ifs
  · exact continues_append (continues_append (continues_refl _) _) _
  · exact continues_trans (continues_append (continues_refl _) _) (skipThread_continues _ _ _)
  · exact continues_trans
      (continues_trans (continues_append (continues_refl _) _) (skipThread_continues _ _ _))
      (signalThread_continues _ _ _ _ _)

/-- The trace after a pass is the trace before it followed by the calls of the
pass. -/
theorem selectBody_trace (env : Env) (s : LoopState) :
    (selectBody env s).1.trace = s.trace ++ bodyCalls env s := by
  obtain ⟨new, h⟩ := selectBody_continues env s
  unfold bodyCalls
  rw [h, List.drop_left]

/-- A pass that leaves the loop has read the sentinel and rewound the list. -/
theorem selectBody_stop (env : Env) (s : LoopState) (h : (selectBody env s).2 = true) :
    bodyCalls env s = [Call.next (-1), Call.rewind] ∧
      (selectBody env s).1.thread_list = { ids := s.thread_list.ids, cursor := 0 } ∧
      (selectBody env s).1.count = s.count := by
  unfold bodyCalls
  simp only [selectBody] at h ⊢
  split_ifs at h ⊢ with h1
  refine ⟨?_, ?_, rfl⟩
  · simp [h1]
  · simp [ThreadList.rewind, next_ids]

theorem skipThread_calls (env : Env) (id : Int) (tr : List Call) :
    ∃ nk, (skipThread env id tr).2 = tr ++ nk ∧ sendCalls nk = [] ∧
      ∀ c ∈ nk, (∃ a, c = Call.accept id a) ∨ (∃ st, c = Call.threadState id st) ∨
        ∃ ok, c = Call.sendSignalToThread id env._signal ok := by
  unfold skipThread
  split_ifs
  · exact ⟨[], by simp, rfl, by simp⟩
  · exact ⟨[_], rfl, rfl, by simp⟩
  · exact ⟨[], by simp, rfl, by simp⟩

theorem signalThread_calls (env : Env) (id : Int) (tl : ThreadList) (count : Int)
    (tr : List Call) :
    ∃ ns, (signalThread env id tl count tr).trace = tr ++ ns ∧ (sendCalls ns).length ≤ 1 ∧
      ∀ c ∈ ns, (∃ a, c = Call.accept id a) ∨ (∃ st, c = Call.threadState id st) ∨
        ∃ ok, c = Call.sendSignalToThread id env._signal ok := by
  by_cases hidle : env.sample_idle_threads = true
  · by_cases hok : env.sendSignalToThread tr.length id env._signal = true
    · exact ⟨[Call.sendSignalToThread id env._signal true],
        by simp [signalThread, wantsSignal, hidle, hok], by simp [sendCalls], by simp⟩
    · exact ⟨[Call.sendSignalToThread id env._signal false],
        by simp [signalThread, wantsSignal, hidle, hok], by simp [sendCalls], by simp⟩
  · by_cases hrun : env.threadState tr.length id = ThreadState.THREAD_RUNNING
    · by_cases hok : env.sendSignalToThread (tr.length + 1) id env._signal = true
      · exact ⟨[Call.threadState id ThreadState.THREAD_RUNNING,
            Call.sendSignalToThread id env._signal true],
          by simp [signalThread, wantsSignal, hidle, hrun, hok], by simp [sendCalls],
          by simp⟩
      · exact ⟨[Call.threadState id ThreadState.THREAD_RUNNING,
            Call.sendSignalToThread id env._signal false],
          by simp [signalThread, wantsSignal, hidle, hrun, hok], by simp [sendCalls],
          by simp⟩
    · exact ⟨[Call.threadState id (env.threadState tr.length id)],
        by simp [signalThread, wantsSignal, hidle, hrun], by simp [sendCalls], by simp⟩

/-- A pass that stays in the loop has read the id at the cursor, which is not
the sentinel, and made only calls about that id. -/
theorem selectBody_pass (env : Env) (s : LoopState) (h : (selectBody env s).2 = false) :
    ∃ id, s.thread_list.ids.get? s.thread_list.cursor = some id ∧ id ≠ -1 ∧
      PassCalls env id (bodyCalls env s) := by
  have hp := selectBody_progress env s h
  obtain ⟨id, hid⟩ : ∃ id, s.thread_list.ids.get? s.thread_list.cursor = some id := by
    rw [List.get?_eq_get hp.2]
    exact ⟨_, rfl⟩
  have hn : s.thread_list.next.1 = id := by
    unfold ThreadList.next
    rw [hid]
  refine ⟨id, hid, ?_, ?_⟩
  · intro hm
    simp [selectBody, hn, hm] at h
  · have hne : id ≠ -1 := by
      intro hm
      simp [selectBody, hn, hm] at h
    obtain ⟨nk, hk, hks, hkc⟩ := skipThread_calls env id (s.trace ++ [Call.next id])
    unfold bodyCalls PassCalls
    simp only [selectBody, hn, if_neg hne]
    split_ifs with hskip
    · refine ⟨nk, ?_, hkc, by simp [hks]⟩
      rw [hk]
      simp
    · obtain ⟨ns, hs, hsl, hsc⟩ := signalThread_calls env id s.thread_list.next.2 s.count
        (skipThread env id (s.trace ++ [Call.next id])).2
      refine ⟨nk ++ ns, ?_, ?_, ?_⟩
      · rw [hs, hk]
        simp
      · intro c hc
        rcases List.mem_append.mp hc with hc | hc
        · exact hkc c hc
        · exact hsc c hc
      · simpa [sendCalls_append, hks] using hsl


/-! ## Runs of the selection loop -/

theorem passCalls_nextResults (env : Env) (id : Int) (calls : List Call)
    (h : PassCalls env id calls) : nextResults calls = [id] := by
  obtain ⟨rest, rfl, hall, _⟩ := h
  have hr : nextResults rest = [] := by
    clear * - hall
    induction rest with
    | nil => rfl
    | cons c tail ih =>
      have htail := ih (fun x hx => hall x (List.mem_cons_of_mem _ hx))
      rcases hall c (List.mem_cons_self _ _) with ⟨a, rfl⟩ | ⟨st, rfl⟩ | ⟨ok, rfl⟩ <;>
        simpa [nextResults] using htail
  simp [nextResults, hr]

theorem passCalls_no_sentinel (env : Env) (id : Int) (calls : List Call)
    (h : PassCalls env id calls) (hid : id ≠ -1) :
    Call.next (-1) ∉ calls ∧ Call.rewind ∉ calls := by
  obtain ⟨rest, rfl, hall, _⟩ := h
  constructor
  · intro hm
    rcases List.mem_cons.mp hm with he | hm
    · injection he with he
      exact hid he.symm
    · rcases hall _ hm with ⟨a, ha⟩ | ⟨st, ha⟩ | ⟨ok, ha⟩ <;> cases ha
  · intro hm
    rcases List.mem_cons.mp hm with he | hm
    · cases he
    · rcases hall _ hm with ⟨a, ha⟩ | ⟨st, ha⟩ | ⟨ok, ha⟩ <;> cases ha

theorem passCalls_signalled (env : Env) (id : Int) (calls : List Call)
    (h : PassCalls env id calls) : signalledIds calls = [] ∨ signalledIds calls = [id] := by
  obtain ⟨rest, rfl, hall, hlen⟩ := h
  have hids : ∀ p ∈ sendCalls rest, p.1 = id := by
    clear hlen
    induction rest with
    | nil => intro p hp; simp [sendCalls] at hp
    | cons c tail ih =>
      have htail := ih (fun x hx => hall x (List.mem_cons_of_mem _ hx))
      rcases hall c (List.mem_cons_self _ _) with ⟨a, rfl⟩ | ⟨st, rfl⟩ | ⟨ok, rfl⟩
      · simpa [sendCalls] using htail
      · simpa [sendCalls] using htail
      · intro p hp
        simp only [sendCalls, List.mem_cons] at hp
        rcases hp with rfl | hp
        · rfl
        · exact htail p hp
  have hs : signalledIds (Call.next id :: rest) = (sendCalls rest).map Prod.fst := by
    simp [signalledIds, sendCalls]
  rw [hs]
  match hsc : sendCalls rest, hlen, hids with
  | [], _, _ => exact Or.inl rfl
  | [p], _, hp =>
    right
    simp [hp p (by simp)]
  | _ :: _ :: _, hl, _ => simp at hl

/-- Every run of the loop that returns is a run pass by pass. -/
theorem selectLoop_run (env : Env) (fuel : Nat) :
    ∀ s r : LoopState, selectLoop env fuel s = some r →
      ∃ new, r.trace = s.trace ++ new ∧ Run env s r new := by
  induction fuel with
  | zero =>
    intro s r h
    simp only [selectLoop] at h
    split_ifs at h with hc
    cases h
    exact ⟨[], by simp, Run.done s hc⟩
  | succ fuel ih =>
    intro s r h
    simp only [selectLoop] at h
    split_ifs at h with hc hb
    · cases h
      exact ⟨bodyCalls env s, selectBody_trace env s, Run.stop s hc hb⟩
    · have hb2 : (selectBody env s).2 = false := by simpa using hb
      obtain ⟨new, hnew, hrun⟩ := ih _ r h
      refine ⟨bodyCalls env s ++ new, ?_, Run.pass s r new hc hb2 hrun⟩
      rw [hnew, selectBody_trace, List.append_assoc]
    · cases h
      exact ⟨[], by simp, Run.done s hc⟩

/-- One cycle returns, and its calls form a run of the loop. -/
theorem selectCycle_run (env : Env) (tl : ThreadList) (trace : List Call) :
    ∃ r new, selectCycle env tl trace = some r ∧ r.trace = trace ++ new ∧
      Run env { thread_list := tl, count := 0, trace := trace } r new := by
  obtain ⟨r, hr⟩ := selectLoop_total env (tl.ids.length - tl.cursor + 1)
    { thread_list := tl, count := 0, trace := trace } (le_refl _)
  obtain ⟨new, hnew, hrun⟩ := selectLoop_run env _ _ r hr
  exact ⟨r, new, hr, hnew, hrun⟩

/-- The ids a run signals are among the ids it read, in the order it read
them, each read serving at most one signal. -/
theorem run_signalled_sublist (env : Env) (s r : LoopState) (new : List Call)
    (h : Run env s r new) : List.Sublist (signalledIds new) (nextResults new) := by
  induction h with
  | done s _ => simp [signalledIds, sendCalls, nextResults]
  | stop s _ hb =>
    rw [(selectBody_stop env s hb).1]
    simp [signalledIds, sendCalls, nextResults]
  | pass s r new _ hb _ ih =>
    obtain ⟨id, _, _, hp⟩ := selectBody_pass env s hb
    rw [signalledIds_append, nextResults_append, passCalls_nextResults env id _ hp]
    refine List.Sublist.append ?_ ih
    rcases passCalls_signalled env id _ hp with h0 | h1
    · rw [h0]; simp
    · rw [h1]

/-- A run reads the sentinel at most once, at its very end, and then rewinds;
otherwise it neither reads it nor rewinds. -/
theorem run_ends_at_sentinel (env : Env) (s r : LoopState) (new : List Call)
    (h : Run env s r new) :
    (Call.next (-1) ∉ new ∧ Call.rewind ∉ new) ∨
      ∃ pre, new = pre ++ [Call.next (-1), Call.rewind] ∧ Call.next (-1) ∉ pre ∧
        Call.rewind ∉ pre ∧ r.thread_list = { ids := s.thread_list.ids, cursor := 0 } := by
  induction h with
  | done s _ => exact Or.inl ⟨by simp, by simp⟩
  | stop s _ hb =>
    right
    obtain ⟨hc, htl, _⟩ := selectBody_stop env s hb
    exact ⟨[], by simp [hc], by simp, by simp, htl⟩
  | pass s r new _ hb _ ih =>
    obtain ⟨id, _, hid, hp⟩ := selectBody_pass env s hb
    obtain ⟨hn, hr⟩ := passCalls_no_sentinel env id _ hp hid
    have hids : (selectBody env s).1.thread_list.ids = s.thread_list.ids := by
      rw [(selectBody_progress env s hb).1]
    rcases ih with ⟨h1, h2⟩ | ⟨pre, hpre, h1, h2, htl⟩
    · left
      exact ⟨by simp [hn, h1], by simp [hr, h2]⟩
    · right
      refine ⟨bodyCalls env s ++ pre, by rw [hpre, List.append_assoc], by simp [hn, h1],
        by simp [hr, h2], ?_⟩
      rw [htl, hids]

/-- A run calls `next()` at most once for each id left after the cursor and
once more for the sentinel. -/
theorem run_next_bound (env : Env) (s r : LoopState) (new : List Call)
    (h : Run env s r new) :
    (nextResults new).length ≤ s.thread_list.ids.length - s.thread_list.cursor + 1 := by
  induction h with
  | done s _ => simp [nextResults]
  | stop s _ hb =>
    rw [(selectBody_stop env s hb).1]
    simp [nextResults]
  | pass s r new _ hb _ ih =>
    obtain ⟨id, _, _, hp⟩ := selectBody_pass env s hb
    obtain ⟨htl, hlt⟩ := selectBody_progress env s hb
    rw [nextResults_append, passCalls_nextResults env id _ hp]
    rw [htl] at ih
    simp only [List.length_append, List.length_singleton] at ih ⊢
    omega


/-! ## Round robin -/

/-- With idle threads sampled and a filter that answers by the id alone, a pass
requests the signal for the id it read exactly when the id is eligible. -/
theorem bodyCalls_signalled (env : Env) (accepted : Int → Bool) (s : LoopState) (id : Int)
    (hidle : env.sample_idle_threads = true) (hacc : ∀ n i, env.accept n i = accepted i)
    (hget : s.thread_list.ids.get? s.thread_list.cursor = some id) (hid : id ≠ -1) :
    signalledIds (bodyCalls env s) = if eligible env accepted id then [id] else [] := by
  have hn : s.thread_list.next.1 = id := by
    unfold ThreadList.next
    rw [hget]
  have hcancel : signalledIds (selectBody env s).1.trace =
      signalledIds s.trace ++ signalledIds (bodyCalls env s) := by
    rw [selectBody_trace, signalledIds_append]
  have hbody : (selectBody env s).1.trace =
      if (skipThread env id (s.trace ++ [Call.next id])).1 = true then
        (skipThread env id (s.trace ++ [Call.next id])).2
      else
        (signalThread env id s.thread_list.next.2 s.count
          (skipThread env id (s.trace ++ [Call.next id])).2).trace := by
    simp only [selectBody, hn, if_neg hid]
    split_ifs <;> rfl
  have hwhole : signalledIds (selectBody env s).1.trace =
      signalledIds s.trace ++ (if eligible env accepted id then [id] else []) := by
    rw [hbody]
    by_cases hself : id = env.self
    · simp [skipThread, hself, eligible, signalledIds, sendCalls_append, sendCalls]
    · by_cases hf : env.thread_filter_enabled = true
      · by_cases ha : accepted id = true
        · by_cases hok : env.sendSignalToThread (s.trace.length + 1 + 1) id env._signal = true <;>
            simp [skipThread, hself, hf, hacc, ha, eligible, signalThread,
              wantsSignal, hidle, hok, signalledIds, sendCalls_append, sendCalls]
        · simp [skipThread, hself, hf, hacc, ha, eligible, signalledIds,
            sendCalls_append, sendCalls]
      · by_cases hok : env.sendSignalToThread (s.trace.length + 1) id env._signal = true <;>
          simp [skipThread, hself, hf, eligible, signalThread,
            wantsSignal, hidle, hok, signalledIds, sendCalls_append, sendCalls]
  rw [hcancel] at hwhole
  exact List.append_cancel_left hwhole

theorem drop_of_get? (ids : List Int) (c : Nat) (id : Int) (h : ids.get? c = some id) :
    ids.drop c = id :: ids.drop (c + 1) := by
  induction ids generalizing c with
  | nil => simp at h
  | cons x rest ih =>
    cases c with
    | zero => simp at h; simp [h]
    | succ c => simp at h; simpa using ih c (by simpa using h)

/-- A pass leaves the loop only at the end of a list that does not hold the
sentinel as an id. -/
theorem selectBody_stop_at_end (env : Env) (s : LoopState)
    (hsent : (-1 : Int) ∉ s.thread_list.ids) (h : (selectBody env s).2 = true) :
    s.thread_list.ids.length ≤ s.thread_list.cursor := by
  by_contra hlt
  have hlt2 : s.thread_list.cursor < s.thread_list.ids.length := by omega
  have hget : s.thread_list.ids.get? s.thread_list.cursor =
      some (s.thread_list.ids.get ⟨s.thread_list.cursor, hlt2⟩) := List.get?_eq_get hlt2
  have hn : s.thread_list.next.1 = s.thread_list.ids.get ⟨s.thread_list.cursor, hlt2⟩ := by
    unfold ThreadList.next
    rw [hget]
  have hne : s.thread_list.ids.get ⟨s.thread_list.cursor, hlt2⟩ ≠ -1 := by
    intro he
    exact hsent (he ▸ List.get_mem _ _ _)
  simp only [selectBody, hn, if_neg hne] at h
  split_ifs at h

/-- Round robin within one run: with idle threads sampled, a filter that
answers by the id alone and no sentinel among the ids, a run that reads the
sentinel has signalled every eligible position from its cursor to the end and
rewound; a run that does not has signalled the eligible ones among the `k`
positions it consumed. -/
theorem run_round_robin (env : Env) (accepted : Int → Bool) (ids : List Int)
    (hidle : env.sample_idle_threads = true) (hacc : ∀ n i, env.accept n i = accepted i)
    (hsent : (-1 : Int) ∉ ids) (s r : LoopState) (new : List Call) (h : Run env s r new) :
    s.thread_list.ids = ids → s.thread_list.cursor ≤ ids.length →
      (Call.next (-1) ∈ new ∧ r.thread_list = { ids := ids, cursor := 0 } ∧
          signalledIds new = (ids.drop s.thread_list.cursor).filter (eligible env accepted)) ∨
        (Call.next (-1) ∉ new ∧
          ∃ k, r.thread_list = { ids := ids, cursor := s.thread_list.cursor + k } ∧
            s.thread_list.cursor + k ≤ ids.length ∧
            (s.count < NONE_THREADS_PER_TICK → 1 ≤ k) ∧
            signalledIds new =
              ((ids.drop s.thread_list.cursor).take k).filter (eligible env accepted)) := by
  induction h with
  | done s hc =>
    intro hids hle
    right
    refine ⟨by simp, 0, ?_, by omega, fun h => absurd h hc, by simp [signalledIds, sendCalls]⟩
    cases hs : s.thread_list
    rw [hs] at hids
    simp at hids ⊢
    exact hids
  | stop s _ hb =>
    intro hids hle
    left
    obtain ⟨hc, htl, _⟩ := selectBody_stop env s hb
    have hend := selectBody_stop_at_end env s (hids ▸ hsent) hb
    rw [hids] at hend
    refine ⟨by simp [hc], by rw [htl, hids], ?_⟩
    rw [hc, List.drop_eq_nil_of_le hend]
    simp [signalledIds, sendCalls]
  | pass s r new _ hb _ ih =>
    intro hids hle
    obtain ⟨id, hget, hid, hp⟩ := selectBody_pass env s hb
    obtain ⟨hn, _⟩ := passCalls_no_sentinel env id _ hp hid
    obtain ⟨htl, hlt⟩ := selectBody_progress env s hb
    have hsig := bodyCalls_signalled env accepted s id hidle hacc hget hid
    have hdrop := drop_of_get? ids s.thread_list.cursor id (hids ▸ hget)
    rw [hids] at hlt
    have ih2 := ih (by rw [htl]; exact hids) (by rw [htl]; simp only; omega)
    rw [htl] at ih2
    simp only at ih2
    rcases ih2 with ⟨hm, hr, hs⟩ | ⟨hm, k, hr, hk, _, hs⟩
    · left
      refine ⟨by simp [hm], hr, ?_⟩
      rw [signalledIds_append, hsig, hs, hdrop, List.filter_cons]
      split_ifs <;> simp
    · right
      refine ⟨by simp [hn, hm], k + 1, ?_, by omega, fun _ => by omega, ?_⟩
      · rw [hr]
        congr 1
        omega
      · rw [signalledIds_append, hsig, hs, hdrop, List.take_succ_cons, List.filter_cons]
        split_ifs <;> simp


/-! ## Iterations of the timerLoop body -/

theorem wrapInt_le_max (x : Int) : wrapInt x ≤ INT_MAX := by
  unfold wrapInt INT_MAX
  omega

/-- With idle threads sampled the target advance makes one size query and
returns. -/
theorem advanceTarget_idle (env : Env) (s : TimerState)
    (hidle : env.sample_idle_threads = true) :
    ∃ s1 c, advanceTarget env s = some s1 ∧ s1.thread_list = s.thread_list ∧
      s1.trace = s.trace ++ [c] ∧ signalledIds [c] = [] ∧ c ≠ Call.next (-1) := by
  by_cases hf : env.thread_filter_enabled = true
  · obtain ⟨a, ha⟩ := adjustInterval_returns env._interval
      (wrapInt (env.filterSize s.trace.length)) (wrapInt_le_max _)
    exact ⟨{ thread_list := s.thread_list,
             next_cycle_time := wrapLong (s.next_cycle_time + a),
             trace := s.trace ++ [Call.filterSize (wrapInt (env.filterSize s.trace.length))] },
      Call.filterSize (wrapInt (env.filterSize s.trace.length)),
      by simp [advanceTarget, hidle, hf, ha], rfl, rfl, rfl, by simp⟩
  · obtain ⟨a, ha⟩ := adjustInterval_returns env._interval s.thread_list.size
      (wrapInt_le_max _)
    exact ⟨{ thread_list := s.thread_list,
             next_cycle_time := wrapLong (s.next_cycle_time + a),
             trace := s.trace ++ [Call.listSize s.thread_list.size] },
      Call.listSize s.thread_list.size,
      by simp [advanceTarget, hidle, hf, ha], rfl, rfl, rfl, by simp⟩

/-- The pacing keeps the thread list and makes only clock and sleep calls. -/
theorem pace_calls (env : Env) (t : TimerState) :
    ∃ tail, (pace env t).trace = t.trace ++ tail ∧ (pace env t).thread_list = t.thread_list ∧
      ∀ c ∈ tail, (∃ x, c = Call.nanotime x) ∨ ∃ d, c = Call.sleep d := by
  simp only [pace]
  split_ifs
  · exact ⟨[Call.nanotime (env.nanotime t.trace.length),
        Call.sleep (wrapLong (t.next_cycle_time - env.nanotime t.trace.length))],
      by simp, rfl, by simp⟩
  · exact ⟨[Call.nanotime (env.nanotime t.trace.length), Call.sleep NONE_MIN_INTERVAL],
      by simp, rfl, by simp⟩
  · exact ⟨[Call.sleep env._interval], rfl, rfl, by simp⟩

theorem quiet_signalledIds (tail : List Call)
    (h : ∀ c ∈ tail, (∃ x, c = Call.nanotime x) ∨ ∃ d, c = Call.sleep d) :
    signalledIds tail = [] ∧ Call.next (-1) ∉ tail := by
  constructor
  · induction tail with
    | nil => rfl
    | cons c rest ih =>
      have hrest := ih (fun x hx => h x (List.mem_cons_of_mem _ hx))
      rcases h c (List.mem_cons_self _ _) with ⟨x, rfl⟩ | ⟨d, rfl⟩ <;>
        simpa [signalledIds, sendCalls] using hrest
  · intro hm
    rcases h _ hm with ⟨x, hx⟩ | ⟨d, hd⟩
    · cases hx
    · cases hd

/-- An enabled iteration with idle threads sampled: a size query, one run of
the selection loop from `count = 0`, then the pacing. -/
theorem timerLoopBody_cycle (env : Env) (s : TimerState)
    (hen : env._enabled s.trace.length = true) (hidle : env.sample_idle_threads = true) :
    ∃ out c r new tail, timerLoopBody env s = some out ∧
      out.thread_list = r.thread_list ∧ out.trace = s.trace ++ ([c] ++ new ++ tail) ∧
      Run env { thread_list := s.thread_list, count := 0, trace := s.trace ++ [c] } r new ∧
      signalledIds [c] = [] ∧ c ≠ Call.next (-1) ∧
      signalledIds tail = [] ∧ Call.next (-1) ∉ tail := by
  obtain ⟨s1, c, hs1, htl, htr, hc1, hc2⟩ := advanceTarget_idle env s hidle
  obtain ⟨r, new, hr, hnew, hrun⟩ := selectCycle_run env s1.thread_list s1.trace
  obtain ⟨tail, htail, hptl, hq⟩ := pace_calls env
    { thread_list := r.thread_list, next_cycle_time := s1.next_cycle_time, trace := r.trace }
  obtain ⟨hq1, hq2⟩ := quiet_signalledIds tail hq
  refine ⟨_, c, r, new, tail, ?_, hptl, ?_, ?_, hc1, hc2, hq1, hq2⟩
  · simp only [timerLoopBody, hen, if_true, hs1, hr]
  · rw [htail]
    simp only
    rw [hnew, htr]
    simp
  · rw [htl, htr] at hrun
    exact hrun

/-- Round robin across cycles: from any cursor the iterations up to the first
that reads the sentinel signal every eligible position from the cursor to the
end of the list, in list order, and leave the cursor at the start. -/
theorem timerLoopSweep_from (env : Env) (accepted : Int → Bool) (ids : List Int)
    (hidle : env.sample_idle_threads = true) (hen : ∀ n, env._enabled n = true)
    (hacc : ∀ n i, env.accept n i = accepted i) (hsent : (-1 : Int) ∉ ids) (cycles : Nat) :
    ∀ s : TimerState, s.thread_list.ids = ids → s.thread_list.cursor ≤ ids.length →
      ids.length - s.thread_list.cursor + 1 ≤ cycles →
      ∃ r new, timerLoopSweep env cycles s = some r ∧ r.trace = s.trace ++ new ∧
        r.thread_list = { ids := ids, cursor := 0 } ∧
        signalledIds new = (ids.drop s.thread_list.cursor).filter (eligible env accepted) := by
  induction cycles with
  | zero => intro s _ _ h; omega
  | succ cycles ih =>
    intro s hids hle hfuel
    obtain ⟨out, c, r, new, tail, hout, hotl, hotr, hrun, hc1, hc2, hq1, hq2⟩ :=
      timerLoopBody_cycle env s (hen _) hidle
    have hdrop : out.trace.drop s.trace.length = [c] ++ new ++ tail := by
      rw [hotr, List.drop_left]
    have hrr := run_round_robin env accepted ids hidle hacc hsent _ r new hrun hids hle
    simp only at hrr
    have hsig : signalledIds ([c] ++ new ++ tail) = signalledIds new := by
      rw [signalledIds_append, signalledIds_append, hc1, hq1]
      simp
    rcases hrr with ⟨hm, hr, hs⟩ | ⟨hm, k, hr, hk, hk1, hs⟩
    · refine ⟨out, [c] ++ new ++ tail, ?_, hotr, by rw [hotl, hr], by rw [hsig, hs]⟩
      simp only [timerLoopSweep, hout]
      rw [if_pos]
      rw [hdrop]
      simp [hm]
    · have hk2 : 1 ≤ k := hk1 (by decide)
      have hnot : Call.next (-1) ∉ out.trace.drop s.trace.length := by
        rw [hdrop]
        simp only [List.mem_append, List.mem_singleton, not_or]
        exact ⟨⟨fun h => hc2 h.symm, hm⟩, hq2⟩
      have hotl2 : out.thread_list = { ids := ids, cursor := s.thread_list.cursor + k } := by
        rw [hotl, hr]
      obtain ⟨r2, new2, hr2, htr2, htl2, hs2⟩ := ih out (by rw [hotl2])
        (by rw [hotl2]; exact hk) (by rw [hotl2]; simp only; omega)
      refine ⟨r2, [c] ++ new ++ tail ++ new2, ?_, ?_, htl2, ?_⟩
      · simp only [timerLoopSweep, hout]
        rw [if_neg hnot]
        exact hr2
      · rw [htr2, hotr, List.append_assoc]
      · rw [signalledIds_append, hsig, hs, hs2, hotl2, ← List.filter_append]
        congr 1
        simp only
        rw [← List.drop_drop, List.take_append_drop]

/-! ## Failed deliveries -/

/-- In the calls `signalThread` adds, a failed delivery is the last call and
leaves `count` as it was. -/
theorem signalThread_failed (env : Env) (id : Int) (tl : ThreadList) (count : Int)
    (tr : List Call) :
    ∃ ns, (signalThread env id tl count tr).trace = tr ++ ns ∧
      ∀ i j sig, ns.get? i = some (Call.sendSignalToThread j sig false) →
        i + 1 = ns.length ∧ (signalThread env id tl count tr).count = count := by
  by_cases hidle : env.sample_idle_threads = true
  · by_cases hok : env.sendSignalToThread tr.length id env._signal = true
    · refine ⟨[Call.sendSignalToThread id env._signal true],
        by simp [signalThread, wantsSignal, hidle, hok], fun i j sig h => ?_⟩
      rcases i with _ | i <;> simp at h
    · refine ⟨[Call.sendSignalToThread id env._signal false],
        by simp [signalThread, wantsSignal, hidle, hok], fun i j sig h => ?_⟩
      rcases i with _ | i
      · exact ⟨rfl, by simp [signalThread, wantsSignal, hidle, hok]⟩
      · simp at h
  · by_cases hrun : env.threadState tr.length id = ThreadState.THREAD_RUNNING
    · by_cases hok : env.sendSignalToThread (tr.length + 1) id env._signal = true
      · refine ⟨[Call.threadState id ThreadState.THREAD_RUNNING,
            Call.sendSignalToThread id env._signal true],
          by simp [signalThread, wantsSignal, hidle, hrun, hok], fun i j sig h => ?_⟩
        rcases i with _ | _ | i <;> simp at h
      · refine ⟨[Call.threadState id ThreadState.THREAD_RUNNING,
            Call.sendSignalToThread id env._signal false],
          by simp [signalThread, wantsSignal, hidle, hrun, hok], fun i j sig h => ?_⟩
        rcases i with _ | _ | i
        · simp at h
        · exact ⟨rfl, by simp [signalThread, wantsSignal, hidle, hrun, hok]⟩
        · simp at h
    · refine ⟨[Call.threadState id (env.threadState tr.length id)],
        by simp [signalThread, wantsSignal, hidle, hrun], fun i j sig h => ?_⟩
      rcases i with _ | i <;> simp at h

theorem get?_append_lt (a b : List Call) (i : Nat) (h : i < a.length) :
    (a ++ b).get? i = a.get? i := by
  simp [List.getElem?_append_left h]

theorem get?_append_ge (a b : List Call) (i : Nat) (h : a.length ≤ i) :
    (a ++ b).get? i = b.get? (i - a.length) := by
  simp [List.getElem?_append_right h]

theorem skipThread_accepts (env : Env) (id : Int) (tr : List Call) :
    ∃ nk, (skipThread env id tr).2 = tr ++ nk ∧ ∀ c ∈ nk, ∃ a, c = Call.accept id a := by
  unfold skipThread
  split_ifs
  · exact ⟨[], by simp, by simp⟩
  · exact ⟨[Call.accept id (env.accept tr.length id)], rfl, by simp⟩
  · exact ⟨[], by simp, by simp⟩

/-- In the calls of a pass that stays in the loop, a failed delivery is the
last call of the pass and leaves `count` as it was. -/
theorem bodyCalls_failed_last (env : Env) (s : LoopState) (hb : (selectBody env s).2 = false)
    (i : Nat) (j sig : Int)
    (h : (bodyCalls env s).get? i = some (Call.sendSignalToThread j sig false)) :
    i + 1 = (bodyCalls env s).length ∧ (selectBody env s).1.count = s.count := by
  obtain ⟨id, hget, hne, _⟩ := selectBody_pass env s hb
  have hn : s.thread_list.next.1 = id := by
    unfold ThreadList.next
    rw [hget]
  obtain ⟨nk, hk, hkc⟩ := skipThread_accepts env id (s.trace ++ [Call.next id])
  have hkn : ∀ m, nk.get? m ≠ some (Call.sendSignalToThread j sig false) := by
    intro m he
    obtain ⟨a, ha⟩ := hkc _ (List.get?_mem he)
    cases ha
  by_cases hskip : (skipThread env id (s.trace ++ [Call.next id])).1 = true
  · have hbc : bodyCalls env s = Call.next id :: nk := by
      unfold bodyCalls
      simp only [selectBody, hn, if_neg hne, if_pos hskip]
      rw [hk]
      simp
    rw [hbc] at h
    rcases i with _ | i
    · simp at h
    · exact absurd (by simpa using h) (hkn i)
  · obtain ⟨ns, hs, hfail⟩ := signalThread_failed env id s.thread_list.next.2 s.count
      (skipThread env id (s.trace ++ [Call.next id])).2
    have hbc : bodyCalls env s = Call.next id :: (nk ++ ns) := by
      unfold bodyCalls
      simp only [selectBody, hn, if_neg hne, if_neg hskip]
      rw [hs, hk]
      simp
    have hcount : (selectBody env s).1.count =
        (signalThread env id s.thread_list.next.2 s.count
          (skipThread env id (s.trace ++ [Call.next id])).2).count := by
      simp only [selectBody, hn, if_neg hne, if_neg hskip]
    rw [hbc] at h ⊢
    rcases i with _ | i
    · simp at h
    · have h2 : (nk ++ ns).get? i = some (Call.sendSignalToThread j sig false) := by
        simpa using h
      by_cases hlt : i < nk.length
      · rw [get?_append_lt _ _ _ hlt] at h2
        exact absurd h2 (hkn i)
      · rw [get?_append_ge _ _ _ (by omega)] at h2
        obtain ⟨hlast, hc⟩ := hfail _ j sig h2
        refine ⟨?_, hcount.trans hc⟩
        simp only [List.length_cons, List.length_append]
        omega

/-- A run that starts below the budget begins with a call to `next()`. -/
theorem run_starts_with_next (env : Env) (s r : LoopState) (new : List Call)
    (h : Run env s r new) (hc : s.count < NONE_THREADS_PER_TICK) :
    ∃ x, new.get? 0 = some (Call.next x) := by
  cases h with
  | done _ hd => exact absurd hc hd
  | stop _ _ hb =>
    rw [(selectBody_stop env s hb).1]
    exact ⟨-1, rfl⟩
  | pass _ _ new2 _ hb _ =>
    obtain ⟨id, _, _, rest, hrest, _⟩ := selectBody_pass env s hb
    rw [hrest]
    exact ⟨id, rfl⟩

/-- After a failed delivery the run goes on: the call that follows it is the
next call to `next()`. -/
theorem run_failed_then_next (env : Env) (s r : LoopState) (new : List Call)
    (h : Run env s r new) :
    ∀ i j sig, new.get? i = some (Call.sendSignalToThread j sig false) →
      ∃ x, new.get? (i + 1) = some (Call.next x) := by
  induction h with
  | done s _ => intro i j sig h; simp at h
  | stop s _ hb =>
    intro i j sig h
    rw [(selectBody_stop env s hb).1] at h
    rcases i with _ | _ | i <;> simp at h
  | pass s r new hc hb hrest ih =>
    intro i j sig h
    by_cases hlt : i < (bodyCalls env s).length
    · rw [get?_append_lt _ _ _ hlt] at h
      obtain ⟨hlast, hcount⟩ := bodyCalls_failed_last env s hb i j sig h
      obtain ⟨x, hx⟩ := run_starts_with_next env _ r new hrest (by rw [hcount]; exact hc)
      refine ⟨x, ?_⟩
      rw [get?_append_ge _ _ _ (by omega)]
      have h0 : i + 1 - (bodyCalls env s).length = 0 := by omega
      rw [h0]
      exact hx
    · rw [get?_append_ge _ _ _ (by omega)] at h
      obtain ⟨x, hx⟩ := ih _ j sig h
      refine ⟨x, ?_⟩
      rw [get?_append_ge _ _ _ (by omega)]
      have h1 : i + 1 - (bodyCalls env s).length = i - (bodyCalls env s).length + 1 := by omega
      rw [h1]
      exact hx

/-- A run leaves the loop only with the budget used up or with the sentinel
read. -/
theorem run_exit (env : Env) (s r : LoopState) (new : List Call) (h : Run env s r new) :
    NONE_THREADS_PER_TICK ≤ r.count ∨ Call.next (-1) ∈ new := by
  induction h with
  | done s hd => exact Or.inl (by omega)
  | stop s _ hb =>
    right
    rw [(selectBody_stop env s hb).1]
    simp
  | pass s r new _ _ _ ih =>
    rcases ih with h1 | h2
    · exact Or.inl h1
    · exact Or.inr (List.mem_append_right _ h2)

/-- A pass leaves the loop exactly when `next()` returned the sentinel. -/
theorem selectBody_stop_next (env : Env) (s : LoopState) (h : (selectBody env s).2 = true) :
    s.thread_list.next.1 = -1 := by
  by_contra hne
  simp only [selectBody, if_neg hne] at h
  split_ifs at h

/-- The values `next()` returns in a run are the ids of the list from the
cursor on, in list order, with the sentinel after the last. -/
theorem run_next_in_order (env : Env) (s r : LoopState) (new : List Call)
    (h : Run env s r new) :
    ∃ rest, s.thread_list.ids.drop s.thread_list.cursor ++ [-1] = nextResults new ++ rest := by
  induction h with
  | done s _ =>
    exact ⟨s.thread_list.ids.drop s.thread_list.cursor ++ [-1], by simp [nextResults]⟩
  | stop s _ hb =>
    rw [(selectBody_stop env s hb).1]
    have hn := selectBody_stop_next env s hb
    unfold ThreadList.next at hn
    cases hg : s.thread_list.ids.get? s.thread_list.cursor with
    | none =>
      rw [List.drop_eq_nil_of_le (List.get?_eq_none.mp hg)]
      exact ⟨[], by simp [nextResults]⟩
    | some id =>
      rw [hg] at hn
      simp only at hn
      rw [drop_of_get? _ _ _ hg, hn]
      exact ⟨s.thread_list.ids.drop (s.thread_list.cursor + 1) ++ [-1],
        by simp [nextResults]⟩
  | pass s r new _ hb _ ih =>
    obtain ⟨id, hget, _, hp⟩ := selectBody_pass env s hb
    obtain ⟨htl, _⟩ := selectBody_progress env s hb
    rw [htl] at ih
    obtain ⟨rest, hrest⟩ := ih
    simp only at hrest
    refine ⟨rest, ?_⟩
    rw [nextResults_append, passCalls_nextResults env id _ hp, drop_of_get? _ _ _ hget,
      List.cons_append, hrest]
    simp

/-! ## Claims on the handler, the lifecycle and the cycles -/

/-- C11: `signalHandler` forwards exactly one sample or none: on a thread that
is not the event-writer thread the only `Profiler::recordSample` call has the
handler's own `ucontext`, weight 1, kind `PERF_SAMPLE` and an event stamped
with the value `TSC::ticks()` returned; on the event-writer thread there is no
`recordSample` call at all. -/
theorem signalHandler_records (writer : Bool) (now : Nat) (signo : Int) (siginfo : Nat)
    (ucontext : Nat) :
    recordSamples (signalHandler writer now signo siginfo ucontext) =
      if writer then [] else [(ucontext, 1, EventType.PERF_SAMPLE, now)] := by
  cases writer <;> simp [signalHandler, recordSamples]

/-- C12: `start` returns the error "Unable to create timer thread" if and only
if `pthread_create` returns non-zero; in every other case, whatever the
requested signal and whatever was registered before, it returns
`Error::OK`. -/
theorem start_error_iff (env : StartEnv) (args : Arguments) (e : Engine) :
    ((start env args e).1 = Error.message "Unable to create timer thread" ↔
        env.pthread_create ≠ 0) ∧
      (env.pthread_create = 0 → (start env args e).1 = Error.OK) ∧
      ((start env args e).1 ≠ Error.OK → env.pthread_create ≠ 0) := by
  by_cases h : env.pthread_create = 0 <;> simp [start, h]

/-- C13: for every program counter `pc` of a 64-bit word and every
`SYSCALL_SIZE` from 1 to 4096: when the page test
`(pc & 0xfff) >= SYSCALL_SIZE` holds, `pc - SYSCALL_SIZE` does not wrap around
and has the page number of `pc`; when the page test and the library lookup
both fail, `StackFrame::isSyscall(prev_pc)` is not evaluated and the result is
`THREAD_RUNNING` unless the instruction at `pc` is a syscall; so `prev_pc` is
read only when it lies in the page of `pc` or its library is known. -/
theorem getThreadState_prev_read_safe (c : SavedContext) (hpc : c.pc < 18446744073709551616)
    (h1 : 1 ≤ c.SYSCALL_SIZE) (h2 : c.SYSCALL_SIZE ≤ 4096) :
    ((c.pc &&& 0xfff) ≥ c.SYSCALL_SIZE →
        c.SYSCALL_SIZE ≤ c.pc ∧ prevPc c = c.pc - c.SYSCALL_SIZE ∧
          prevPc c >>> 12 = c.pc >>> 12) ∧
      (¬ (c.pc &&& 0xfff) ≥ c.SYSCALL_SIZE → c.findLibraryByAddress (prevPc c) = false →
        Access.isSyscall (prevPc c) ∉ (getThreadStateTrace c).2 ∧
          (c.isSyscall c.pc = false → getThreadState c = ThreadState.THREAD_RUNNING)) ∧
      (Access.isSyscall (prevPc c) ∈ (getThreadStateTrace c).2 →
        prevPc c >>> 12 = c.pc >>> 12 ∨ c.findLibraryByAddress (prevPc c) = true) := by
  have hsame : (c.pc &&& 0xfff) ≥ c.SYSCALL_SIZE →
      c.SYSCALL_SIZE ≤ c.pc ∧ prevPc c = c.pc - c.SYSCALL_SIZE ∧
        prevPc c >>> 12 = c.pc >>> 12 := by
    intro hg
    rw [and_fff_eq_mod] at hg
    have hle : c.SYSCALL_SIZE ≤ c.pc := by omega
    refine ⟨hle, prevPc_of_le c hpc hle, ?_⟩
    rw [prevPc_of_le c hpc hle, shiftRight_twelve, shiftRight_twelve]
    omega
  have hne := prevPc_ne_pc c h1 h2
  have hfail : ¬ (c.pc &&& 0xfff) ≥ c.SYSCALL_SIZE → c.findLibraryByAddress (prevPc c) = false →
      Access.isSyscall (prevPc c) ∉ (getThreadStateTrace c).2 ∧
        (c.isSyscall c.pc = false → getThreadState c = ThreadState.THREAD_RUNNING) := by
    intro hpage hlib
    unfold getThreadState
    rw [getThreadStateTrace_unguarded c hpage hlib]
    by_cases hs : c.isSyscall c.pc = true
    · simp [hs, hne]
    · simp [hs, hne]
  refine ⟨hsame, hfail, fun hmem => ?_⟩
  by_cases hpage : (c.pc &&& 0xfff) ≥ c.SYSCALL_SIZE
  · exact Or.inl (hsame hpage).2.2
  · by_cases hlib : c.findLibraryByAddress (prevPc c) = true
    · exact Or.inr hlib
    · exact absurd hmem (hfail hpage (by simpa using hlib)).1

/-- C13, witness: at the start of a page with a syscall of two bytes the page
test fails, and the previous instruction is read because its library is
known. -/
theorem getThreadState_prev_read_safe_witness :
    pageStartContext.pc < 18446744073709551616 ∧ 1 ≤ pageStartContext.SYSCALL_SIZE ∧
      pageStartContext.SYSCALL_SIZE ≤ 4096 ∧
      Access.isSyscall (prevPc pageStartContext) ∈ (getThreadStateTrace pageStartContext).2 ∧
      (prevPc pageStartContext >>> 12 = pageStartContext.pc >>> 12 ∨
        pageStartContext.findLibraryByAddress (prevPc pageStartContext) = true) :=
  ⟨by decide, by decide, by decide, by decide,
    (getThreadState_prev_read_safe pageStartContext (by decide) (by decide) (by decide)).2.2
      (by decide)⟩

/-- C14: failed deliveries are skipped and do not count toward the budget: a
cycle returns with its counter equal to the number of
`OS::sendSignalToThread` calls that succeeded, at most 8; a call that fails
leaves the counter as it was and the loop moves on: the call right after a
failed delivery is the next `next()`, the values `next()` returns are the ids
of the list from the cursor on in list order (then the sentinel), the ids
signalled are a subsequence of them, so each id read is sent to at most once
and a failed id is not sent to again; and the cycle ends only with 8
deliveries succeeded or with the sentinel read. -/
theorem selectCycle_counts_deliveries (env : Env) (tl : ThreadList) (trace : List Call) :
    (∃ r new, selectCycle env tl trace = some r ∧ r.trace = trace ++ new ∧
        r.count = (deliveredCount new : Int) ∧
        (deliveredCount new : Int) ≤ NONE_THREADS_PER_TICK ∧
        List.Sublist (signalledIds new) (nextResults new) ∧
        (∀ i id sig, new.get? i = some (Call.sendSignalToThread id sig false) →
          ∃ x, new.get? (i + 1) = some (Call.next x)) ∧
        (∃ rest, tl.ids.drop tl.cursor ++ [-1] = nextResults new ++ rest) ∧
        ((deliveredCount new : Int) = NONE_THREADS_PER_TICK ∨ Call.next (-1) ∈ new)) ∧
      ∀ (id count : Int) (tr : List Call),
        env.sendSignalToThread (wantsSignal env id tr).2.length id env._signal = false →
          (signalThread env id tl count tr).count = count := by
  constructor
  · obtain ⟨r, hr, k, h8⟩ := selectCycle_keeps env tl trace
    obtain ⟨r2, new, hr2, hnew, hrun⟩ := selectCycle_run env tl trace
    have hrr : r2 = r := Option.some.inj (hr2.symm.trans hr)
    subst hrr
    have hc := k.counted
    simp only at hc
    rw [hnew, deliveredCount_append] at hc
    have hcount : r2.count = (deliveredCount new : Int) := by
      push_cast at hc
      omega
    refine ⟨r2, new, hr2, hnew, hcount, hcount ▸ h8, run_signalled_sublist env _ _ _ hrun,
      run_failed_then_next env _ _ _ hrun, run_next_in_order env _ _ _ hrun, ?_⟩
    rcases run_exit env _ _ _ hrun with hfull | hend
    · left
      rw [hcount] at hfull h8
      omega
    · exact Or.inr hend
  · intro id count tr hfail
    simp only [signalThread, hfail]
    split_ifs with h1 h2
    · exact absurd h2 (by simp)
    · rfl
    · rfl

/-- C15: when `next()` returns the sentinel -1 during a cycle, the cycle calls
`rewind()` once, right after it, and makes no further call: the sentinel and
the rewind are the last two calls of the cycle and neither occurs before,
whatever the number of threads signalled; the pacing that follows makes only
clock and sleep calls. -/
theorem selectCycle_stops_at_sentinel (env : Env) (tl : ThreadList) (trace : List Call) :
    ∃ r new, selectCycle env tl trace = some r ∧ r.trace = trace ++ new ∧
      (Call.next (-1) ∈ new →
        ∃ pre, new = pre ++ [Call.next (-1), Call.rewind] ∧ Call.next (-1) ∉ pre ∧
          Call.rewind ∉ pre) ∧
      ∀ t : Int, ∃ tail,
        (pace env { thread_list := r.thread_list, next_cycle_time := t, trace := r.trace }).trace =
            trace ++ new ++ tail ∧
          ∀ c ∈ tail, (∃ x, c = Call.nanotime x) ∨ ∃ d, c = Call.sleep d := by
  obtain ⟨r, new, hr, hnew, hrun⟩ := selectCycle_run env tl trace
  refine ⟨r, new, hr, hnew, fun hm => ?_, fun t => ?_⟩
  · rcases run_ends_at_sentinel env _ _ _ hrun with ⟨hn, _⟩ | ⟨pre, hpre, h1, h2, _⟩
    · exact absurd hm hn
    · exact ⟨pre, hpre, h1, h2⟩
  · obtain ⟨tail, htail, _, hq⟩ := pace_calls env
      { thread_list := r.thread_list, next_cycle_time := t, trace := r.trace }
    exact ⟨tail, by rw [htail, hnew], hq⟩

/-- C16: thread selection is round robin and persistent across cycles: for a
thread list of ids other than the sentinel with the cursor at the start, idle
threads sampled, sampling enabled and a filter that answers by the id alone,
the consecutive iterations up to and including the first whose cycle reads the
sentinel return, request the signal exactly once for every position whose id
is not `self` and passes the filter, in list order, and leave the cursor at
the start. -/
theorem timerLoopSweep_round_robin (env : Env) (accepted : Int → Bool) (ids : List Int)
    (s : TimerState) (hstart : s.thread_list = { ids := ids, cursor := 0 })
    (hsent : (-1 : Int) ∉ ids) (hidle : env.sample_idle_threads = true)
    (hen : ∀ n, env._enabled n = true) (hacc : ∀ n i, env.accept n i = accepted i) :
    ∃ r new, timerLoopSweep env (ids.length + 1) s = some r ∧ r.trace = s.trace ++ new ∧
      signalledIds new = ids.filter (eligible env accepted) ∧
      r.thread_list = { ids := ids, cursor := 0 } := by
  obtain ⟨r, new, hr, htr, htl, hs⟩ :=
    timerLoopSweep_from env accepted ids hidle hen hacc hsent (ids.length + 1) s
      (by rw [hstart]) (by rw [hstart]; exact Nat.zero_le _) (by rw [hstart]; simp)
  rw [hstart] at hs
  exact ⟨r, new, hr, htr, by simpa using hs, htl⟩

/-- C16, witness: twenty-four threads, the control thread 4 among them, and a
filter that passes the even ids: one sweep signals 2, 6, 8, ..., 24 in this
order. -/
theorem timerLoopSweep_round_robin_witness :
    (-1 : Int) ∉ manyThreads.ids ∧ fairEnv.sample_idle_threads = true ∧
      manyThreads.ids.filter (eligible fairEnv fun id => id % 2 == 0) =
        [2, 6, 8, 10, 12, 14, 16, 18, 20, 22, 24] ∧
      ∃ r new, timerLoopSweep fairEnv (manyThreads.ids.length + 1) ⟨manyThreads, 0, []⟩ = some r ∧
        r.trace = [] ++ new ∧
        signalledIds new = manyThreads.ids.filter (eligible fairEnv fun id => id % 2 == 0) ∧
        r.thread_list = { ids := manyThreads.ids, cursor := 0 } :=
  ⟨by decide, rfl, by decide,
    timerLoopSweep_round_robin fairEnv (fun id => id % 2 == 0) manyThreads.ids
      ⟨manyThreads, 0, []⟩ rfl (by decide) rfl (fun _ => rfl) (fun _ _ => rfl)⟩

/-- C17: while sampling is disabled an iteration of the timerLoop body selects
no thread: its only call is `OS::sleep(_interval)`, and the thread list with
its cursor and `next_cycle_time` are as before. -/
theorem timerLoopBody_paused (env : Env) (s : TimerState)
    (h : env._enabled s.trace.length = false) :
    timerLoopBody env s =
      some { thread_list := s.thread_list, next_cycle_time := s.next_cycle_time,
             trace := s.trace ++ [Call.sleep env._interval] } := by
  simp [timerLoopBody, h]

/-- C17, witness: a paused iteration with nine threads in the list. -/
theorem timerLoopBody_paused_witness :
    pausedEnv._enabled ([] : List Call).length = false ∧
      timerLoopBody pausedEnv ⟨nineThreads, 5, []⟩ =
        some { thread_list := nineThreads, next_cycle_time := 5,
               trace := [] ++ [Call.sleep pausedEnv._interval] } :=
  ⟨by decide, timerLoopBody_paused pausedEnv ⟨nineThreads, 5, []⟩ (by decide)⟩

/-- C18: `start` resolves the signal from the requested value `s`: the
environment default `OS::getProfilingSignal(1)` for 0, `s >> 8` when that is
positive, otherwise `s` itself, so every `s` with `0 < s < 256` is used
unchanged; the handler is installed for the resolved signal and no other
registration changes. -/
theorem start_resolves_signal (env : StartEnv) (args : Arguments) (e : Engine) :
    (args._signal = 0 → (start env args e).2._signal = env.getProfilingSignal 1) ∧
      (args._signal ≠ 0 → (args._signal >>> (8 : Nat)) > 0 →
        (start env args e).2._signal = args._signal >>> (8 : Nat)) ∧
      (args._signal ≠ 0 → ¬ (args._signal >>> (8 : Nat)) > 0 →
        (start env args e).2._signal = args._signal) ∧
      (0 < args._signal → args._signal < 256 → (start env args e).2._signal = args._signal) ∧
      (start env args e).2.handlers ((start env args e).2._signal) = Handler.signalHandler ∧
      (∀ n, n ≠ (start env args e).2._signal → (start env args e).2.handlers n = e.handlers n) := by
  have hsig : (start env args e).2._signal = resolveSignal env args._signal := by
    unfold start
    split_ifs <;> rfl
  have hh : (start env args e).2.handlers =
      (installSignalHandler e.handlers (resolveSignal env args._signal)
        Handler.signalHandler).2 := by
    unfold start
    split_ifs <;> rfl
  rw [hsig, hh]
  refine ⟨?_, ?_, ?_, ?_, ?_, ?_⟩
  · intro h0; simp [resolveSignal, h0]
  · intro h0 h8; simp [resolveSignal, h0, h8]
  · intro h0 h8; simp [resolveSignal, h0, h8]
  · intro hpos hlt
    have h8 : args._signal >>> (8 : Nat) = 0 := by
      rw [Int.shiftRight_eq_div_pow]
      omega
    have h0 : args._signal ≠ 0 := by omega
    simp [resolveSignal, h0, h8]
  · simp [installSignalHandler]
  · intro n hn
    simp [installSignalHandler, hn]

/-- C19: the selection loop of one cycle always terminates: for every thread
list, filter, idle-sampling flag, thread states and delivery outcomes the
cycle returns, after at most one call to `next()` for each id left after the
cursor and one more for the sentinel. -/
theorem selectCycle_terminates (env : Env) (tl : ThreadList) (trace : List Call) :
    ∃ r new, selectCycle env tl trace = some r ∧ r.trace = trace ++ new ∧
      (nextResults new).length ≤ tl.ids.length - tl.cursor + 1 := by
  obtain ⟨r, new, hr, hnew, hrun⟩ := selectCycle_run env tl trace
  exact ⟨r, new, hr, hnew, run_next_bound env _ _ _ hrun⟩

/-- C20 (as amended): `start` does not roll back on failure: after every call,
whether it returns `Error::OK` or the thread-creation error, `_running` is
true and the handler is installed for the resolved signal; the state after the
call differs from the state before it whenever `_running` was false or the
handler was not installed for that signal before. -/
theorem start_no_rollback (env : StartEnv) (args : Arguments) (e : Engine) :
    (start env args e).2._running = true ∧
      (start env args e).2._signal = resolveSignal env args._signal ∧
      (start env args e).2.handlers (resolveSignal env args._signal) =
        Handler.signalHandler ∧
      ((e._running = false ∨
          e.handlers (resolveSignal env args._signal) ≠ Handler.signalHandler) →
        (start env args e).2 ≠ e) := by
  have hrun : (start env args e).2._running = true := by
    unfold start
    split_ifs <;> rfl
  have hsig : (start env args e).2._signal = resolveSignal env args._signal := by
    unfold start
    split_ifs <;> rfl
  have hh : (start env args e).2.handlers (resolveSignal env args._signal) =
      Handler.signalHandler := by
    unfold start
    split_ifs <;> simp [installSignalHandler]
  refine ⟨hrun, hsig, hh, fun hpre heq => ?_⟩
  rw [heq] at hrun hh
  rcases hpre with hr | hn
  · rw [hr] at hrun
    cases hrun
  · exact hn hh

/-- C20, counterexample: `start` called on an engine that is already started,
with thread creation failing, returns the error and leaves the state exactly
as it was before the call. -/
theorem start_failed_same_state :
    (start failingStartEnv ⟨27⟩ startedEngine).1 =
        Error.message "Unable to create timer thread" ∧
      (start failingStartEnv ⟨27⟩ startedEngine).2 = startedEngine ∧
      ¬ ((start failingStartEnv ⟨27⟩ startedEngine).2 ≠ startedEngine) := by
  have hs : (start failingStartEnv ⟨27⟩ startedEngine).2 = startedEngine := by
    have hi : (installSignalHandler startedEngine.handlers 27 Handler.signalHandler).2 =
        startedEngine.handlers :=
      installSignalHandler_idem _ _ (by decide)
    have hr : resolveSignal failingStartEnv 27 = 27 := by decide
    simp only [start, hr, hi]
    rfl
  exact ⟨by decide, hs, fun h => h hs⟩

end NoneEvent
